import Mathlib

/-
  Verification of the aggregation-and-idempotency pipeline of `bot.py`
  (class JobBot), against the natural-language specification.

  Shallow embedding notes:
  * The applied-jobs log ("Ledger") is modelled as the `String` contents of
    the file.  `job_already_applied` (bot.py:95-101) is Python's
    `url in file.read()`, i.e. a substring test; `mark_as_applied`
    (bot.py:103-115) appends one CSV row (`csv.writer`, QUOTE_MINIMAL,
    `\r\n` terminator, embedded quote characters doubled).
    Python opens the log in text mode, whose universal-newline translation
    rewrites `\r\n` and lone `\r` to `\n` on *reads*; every theorem below
    constrains the strings it matches to be CR-free, where that translation
    is the identity on the matched regions, so the raw-contents model agrees
    with the translated one on everything proved here.
  * Upstream JSON payloads are modelled by the inductive `JVal`; Python's
    dynamic failures (attribute/type errors on values of unexpected shape)
    are modelled by `Except Unit`.  An adapter's `try/except` catching any
    such failure and returning `[]` (bot.py:156-158, 259-261) appears as the
    `.error` branches of `sourceLoop` / the fetch functions.  A `requests`
    failure (network error, timeout, non-2xx via raise_for_status, or a body
    that fails to decode) is modelled by the response argument being
    `.error ()`.
  * WeWorkRemotely's HTML page is modelled after BeautifulSoup's view of it:
    a list of `section.jobs` elements, each a list of class-less `li`
    elements carrying an optional anchor href, title-span text and
    company-span text (bot.py:183-202).
  * `datetime.now()` is nondeterministic; the two renderings used by the code
    (isoformat for ledger rows, "%Y-%m-%d %H:%M" for records) are modelled by
    oracle streams `σ τ : Nat → String` indexed by a counter that advances
    once per emitted record.
  * Python's `str()` of non-string scalars is rendered exactly; its rendering
    of lists/dicts is abbreviated (`pyStr`), which is reachable only from
    payload shapes excluded by every theorem's well-formedness hypotheses
    (the adapters either restrict the relevant values to strings or raise
    before any record is built).
-/

/-! ### Basic string machinery -/

/-- Python's `needle in hay` on strings: substring (contiguous infix) test. -/
def strIn (needle hay : String) : Bool := decide (needle.data <:+: hay.data)

/-- A CSV-inert string: contains none of `,`, `"`, CR, LF.  Such a field is
written verbatim by `csv.writer` and cannot interfere with row structure. -/
def cleanField (s : String) : Bool :=
  s.data.all fun c => !(c == ',' || c == '"' || c == '\r' || c == '\n')

/-- The file is empty or ends with a newline (true of every file consisting of
whole CSV rows, and of the empty file created by `Path.touch`). -/
def endsNL (s : String) : Bool := s.data.isEmpty || s.data.getLast? == some '\n'

/-! ### Ledger (bot.py:95-115, 322-338) -/

/-- `csv.writer`'s quote-doubling for an embedded quote character. -/
def csvEscape (s : String) : String :=
  ⟨s.data.flatMap fun c => if c = '"' then ['"', '"'] else [c]⟩

/-- One CSV field under QUOTE_MINIMAL: quoted iff it contains the delimiter,
the quote character, or a line-terminator character. -/
def csvField (s : String) : String :=
  if s.data.any fun c => c == ',' || c == '"' || c == '\r' || c == '\n' then
    "\"" ++ csvEscape s ++ "\""
  else s

/-- One row as written by `writer.writerow([ts, url, title, company])`
(bot.py:107-113); `csv.writer`'s default line terminator is CRLF. -/
def csvRow (ts url title company : String) : String :=
  csvField ts ++ "," ++ csvField url ++ "," ++ csvField title ++ "," ++ csvField company ++ "\r\n"

/-- `mark_as_applied` (bot.py:103-115): append one CSV row to the log file. -/
def mark_as_applied (file ts url title company : String) : String :=
  file ++ csvRow ts url title company

/-- `job_already_applied` (bot.py:95-101): `url in file.read()` — a substring
test against the whole file contents. -/
def job_already_applied (file url : String) : Bool := strIn url file

/-- The `total_applications` statistic (bot.py:322-338): `len(file.readlines())`,
i.e. the number of newline characters plus one for a trailing unterminated
chunk. -/
def get_stats_total (file : String) : Nat :=
  if file.data.isEmpty then 0
  else file.data.count '\n' + (if file.data.getLast? == some '\n' then 0 else 1)

/-- A Ledger entry as appended by `mark_as_applied`. -/
structure LEntry where
  ts : String
  url : String
  title : String
  company : String
deriving DecidableEq

/-- The persisted ledger obtained by appending the given entries, in order,
starting from the empty file that `Path.touch` creates (bot.py:37). -/
def ledgerFile (es : List LEntry) : String :=
  es.foldl (fun f e => mark_as_applied f e.ts e.url e.title e.company) ""

/-! ### Keyword filter (bot.py:117-122) -/

/-- Python's `str.lower()`: lower-case each character (exact on the ASCII
range; every configured keyword is ASCII). -/
def lowerStr (s : String) : String := ⟨s.data.map Char.toLower⟩

/-- Python's `str.strip()`: drop leading and trailing whitespace. -/
def pyStrip (s : String) : String :=
  ⟨((s.data.dropWhile Char.isWhitespace).reverse.dropWhile Char.isWhitespace).reverse⟩

/-- `matches_keywords`: false on an empty (falsy) text, otherwise a
case-insensitive substring test against any configured keyword. -/
def matches_keywords (kws : List String) (s : String) : Bool :=
  if s.isEmpty then false
  else kws.any fun k => strIn (lowerStr k) (lowerStr s)

/-! ### Email extraction (bot.py:88-93)

The regex `[a-zA-Z0-9_.+-]+@[a-zA-Z0-9-]+\.[a-zA-Z0-9-.]+` is effectively
backtracking-free: each character class excludes the literal that follows it,
so each greedy `+` run is exactly a maximal `takeWhile` run.  `re.search`
returns the match at the leftmost starting position that succeeds. -/

def isLocalChar (c : Char) : Bool := c.isAlphanum || c == '_' || c == '.' || c == '+' || c == '-'

def isDomainChar (c : Char) : Bool := c.isAlphanum || c == '-'

def isTldChar (c : Char) : Bool := c.isAlphanum || c == '-' || c == '.'

/-- Attempt to match the email regex anchored at the head of `cs`. -/
def matchEmailAt (cs : List Char) : Option (List Char) :=
  let l := cs.takeWhile isLocalChar
  if l.isEmpty then none
  else
    match cs.dropWhile isLocalChar with
    | '@' :: r2 =>
      let d := r2.takeWhile isDomainChar
      if d.isEmpty then none
      else
        match r2.dropWhile isDomainChar with
        | '.' :: r4 =>
          let t := r4.takeWhile isTldChar
          if t.isEmpty then none else some (l ++ '@' :: (d ++ '.' :: t))
        | _ => none
    | _ => none

/-- `re.search`: try each start position from the left. -/
def searchEmail : List Char → Option (List Char)
  | [] => none
  | c :: cs =>
    match matchEmailAt (c :: cs) with
    | some m => some m
    | none => searchEmail cs

def searchEmailStr (s : String) : Option String := (searchEmail s.data).map fun cs => ⟨cs⟩

/-- `extract_email` (bot.py:88-93): `None` for a falsy text (absent or empty),
otherwise the first regex match if any. -/
def extract_email (text : Option String) : Option String :=
  match text with
  | none => none
  | some s => if s.isEmpty then none else searchEmailStr s

/-! ### Python JSON values and dynamic semantics -/

inductive JVal where
  | jstr (s : String)
  | jnum (n : Int)
  | jnull
  | jarr (xs : List JVal)
  | jobj (fields : List (String × JVal))

/-- `dict.get(key)` on a parsed JSON object (keys are distinct after JSON
decoding, so first-match lookup is exact). -/
def jlookup : List (String × JVal) → String → Option JVal
  | [], _ => none
  | (k, v) :: rest, key => if k == key then some v else jlookup rest key

/-- Python truthiness of a JSON value. -/
def jTruthy : JVal → Bool
  | .jstr s => !s.isEmpty
  | .jnum n => decide (n ≠ 0)
  | .jnull => false
  | .jarr xs => !xs.isEmpty
  | .jobj fs => !fs.isEmpty

/-- Python `str()` of a JSON value.  Scalars are rendered exactly; the
rendering of lists/dicts is abbreviated — no theorem below depends on those
branches (see the header note). -/
def pyStr : JVal → String
  | .jstr s => s
  | .jnull => "None"
  | .jnum n => toString n
  | .jarr _ => "[...]"
  | .jobj _ => "\x7b...\x7d"

/-- `matches_keywords` applied to a dynamically-typed value: a falsy value
short-circuits to `False` at `if not text`; a truthy non-string raises at
`text.lower()`. -/
def pyMatchesKeywords (kws : List String) (v : JVal) : Except Unit Bool :=
  if jTruthy v then
    match v with
    | .jstr s => .ok (matches_keywords kws s)
    | _ => .error ()
  else .ok false

/-- `extract_email` applied to a dynamically-typed value: a falsy value yields
`None`; a truthy non-string raises inside `re.search`. -/
def pyExtractEmail (v : JVal) : Except Unit (Option String) :=
  if jTruthy v then
    match v with
    | .jstr s => .ok (searchEmailStr s)
    | _ => .error ()
  else .ok none

/-! ### Job records (bot.py:142-149, 193-200, 239-246) -/

structure Job where
  title : String
  company : String
  url : String
  email : Option String
  date : String
  source : String
deriving DecidableEq

/-- Erase the nondeterministic observation timestamp. -/
def eraseDate (j : Job) : Job :=
  { j with date := "" }

/-! ### Adapters.

Each JSON adapter's per-entry body runs inside the fetch-level `try`; any
dynamic failure aborts the whole fetch, which then returns `[]` with whatever
ledger writes already happened (bot.py:124-158, 217-261). -/

/-- Loop body of `fetch_remoteok_jobs` for one entry of the decoded array
(bot.py:135-151).  Exception propagation is written as explicit matches on
the `Except` results, in evaluation order: `title`/`description` feed
`matches_keywords` (short-circuit `or`), then the truthy check on the url,
then the ledger membership test, then `extract_email` — any raise at those
points (truthy non-string values, non-object entry) unwinds the fetch. -/
def rokEntry (kws : List String) (σ τ : Nat → String) (e : JVal) (f : String) (k : Nat) :
    Except Unit (Option (Job × String × Nat)) :=
  match e with
  | .jobj fields =>
    let titleV : JVal :=
      match jlookup fields "position" with
      | some v => if jTruthy v then v else (jlookup fields "title").getD (.jstr "")
      | none => (jlookup fields "title").getD (.jstr "")
    let descV : JVal := (jlookup fields "description").getD (.jstr "")
    match pyMatchesKeywords kws titleV with
    | .error e' => .error e'
    | .ok m1 =>
      match (if m1 then .ok true else pyMatchesKeywords kws descV : Except Unit Bool) with
      | .error e' => .error e'
      | .ok m =>
        if m then
          let linkV : JVal := (jlookup fields "url").getD (.jstr "")
          if jTruthy linkV then
            match linkV with
            | .jstr link =>
              if job_already_applied f link then .ok none
              else
                match pyExtractEmail descV with
                | .error e' => .error e'
                | .ok em =>
                  let title := pyStr titleV
                  let comp := pyStr ((jlookup fields "company").getD (.jstr "Unknown"))
                  .ok (some (⟨title, comp, link, em, τ k, "RemoteOK"⟩,
                       mark_as_applied f (σ k) link title comp, k + 1))
            | _ => .error ()
          else .ok none
        else .ok none
  | _ => .error ()

/-- Loop body of `fetch_remotive_jobs` for one element of `data["jobs"]`
(bot.py:232-248); same structure as the RemoteOK body, with `title` only
(no `position` fallback) and `company_name`. -/
def rmvEntry (kws : List String) (σ τ : Nat → String) (e : JVal) (f : String) (k : Nat) :
    Except Unit (Option (Job × String × Nat)) :=
  match e with
  | .jobj fields =>
    let titleV : JVal := (jlookup fields "title").getD (.jstr "")
    let descV : JVal := (jlookup fields "description").getD (.jstr "")
    match pyMatchesKeywords kws titleV with
    | .error e' => .error e'
    | .ok m1 =>
      match (if m1 then .ok true else pyMatchesKeywords kws descV : Except Unit Bool) with
      | .error e' => .error e'
      | .ok m =>
        if m then
          let linkV : JVal := (jlookup fields "url").getD (.jstr "")
          if jTruthy linkV then
            match linkV with
            | .jstr link =>
              if job_already_applied f link then .ok none
              else
                match pyExtractEmail descV with
                | .error e' => .error e'
                | .ok em =>
                  let title := pyStr titleV
                  let comp := pyStr ((jlookup fields "company_name").getD (.jstr "Unknown"))
                  .ok (some (⟨title, comp, link, em, τ k, "Remotive"⟩,
                       mark_as_applied f (σ k) link title comp, k + 1))
            | _ => .error ()
          else .ok none
        else .ok none
  | _ => .error ()

/-- The shared `for`-loop shape of the two JSON adapters: on the first entry
whose processing raises, everything unwinds to the fetch-level `except`,
which returns `[]` (ledger writes made so far persist in the file). -/
def sourceLoop (step : JVal → String → Nat → Except Unit (Option (Job × String × Nat))) :
    List JVal → List Job → String → Nat → List Job × String × Nat
  | [], acc, f, k => (acc, f, k)
  | e :: es, acc, f, k =>
    match step e f k with
    | .error _ => ([], f, k)
    | .ok none => sourceLoop step es acc f k
    | .ok (some (jb, f', k')) => sourceLoop step es (acc ++ [jb]) f' k'

/-- `fetch_remoteok_jobs` (bot.py:124-158).  The decoded body must be a list;
`jobs[1:]` skips the metadata element.  A non-list body fails (slicing a dict
raises; iterating a string's characters raises at `.get` on the first
character, or yields nothing) — in every such case the observable result is
`([], file unchanged)`, as is the case for a transport-level failure. -/
def fetch_remoteok_jobs (kws : List String) (σ τ : Nat → String) (resp : Except Unit JVal)
    (f : String) (k : Nat) : List Job × String × Nat :=
  match resp with
  | .ok (.jarr xs) => sourceLoop (rokEntry kws σ τ) (xs.drop 1) [] f k
  | _ => ([], f, k)

/-- One class-less `li` element of a `section.jobs` container, as seen through
BeautifulSoup (bot.py:183-190): first anchor's href, title-span text,
company-span text, each possibly absent. -/
structure WLi where
  href : Option String
  titleText : Option String
  companyText : Option String
deriving DecidableEq

/-- Loop body of `fetch_wwr_jobs` for one `li` (bot.py:184-202).  No dynamic
failure is possible here: missing pieces are skipped by the `if`s. -/
def wwrLi (kws : List String) (σ τ : Nat → String) (li : WLi) (f : String) (k : Nat) :
    Option (Job × String × Nat) :=
  match li.href with
  | none => none
  | some h =>
    let link := "https://weworkremotely.com" ++ h
    match li.titleText with
    | none => none
    | some t =>
      if matches_keywords kws t then
        if job_already_applied f link then none
        else
          let title := pyStrip t
          let comp :=
            match li.companyText with
            | some c => pyStrip c
            | none => "Unknown"
          some (⟨title, comp, link, none, τ k, "WeWorkRemotely"⟩,
                mark_as_applied f (σ k) link title comp, k + 1)
      else none

def wwrLoop (kws : List String) (σ τ : Nat → String) :
    List WLi → List Job → String → Nat → List Job × String × Nat
  | [], acc, f, k => (acc, f, k)
  | li :: lis, acc, f, k =>
    match wwrLi kws σ τ li f k with
    | none => wwrLoop kws σ τ lis acc f k
    | some (jb, f', k') => wwrLoop kws σ τ lis (acc ++ [jb]) f' k'

/-- `fetch_wwr_jobs` (bot.py:160-215): iterate the `li`s of all `section.jobs`
containers; any HTTP/transport failure (including the 403 block) returns `[]`. -/
def fetch_wwr_jobs (kws : List String) (σ τ : Nat → String)
    (resp : Except Unit (List (List WLi))) (f : String) (k : Nat) : List Job × String × Nat :=
  match resp with
  | .ok secs => wwrLoop kws σ τ secs.flatten [] f k
  | .error _ => ([], f, k)

/-- `fetch_remotive_jobs` (bot.py:217-261).  `data.get("jobs", [])` needs a
dict body; a missing or non-list `jobs` value yields `([], file unchanged)`
(either zero iterations or a raise caught by the fetch-level `except`). -/
def fetch_remotive_jobs (kws : List String) (σ τ : Nat → String) (resp : Except Unit JVal)
    (f : String) (k : Nat) : List Job × String × Nat :=
  match resp with
  | .ok (.jobj fs) =>
    match jlookup fs "jobs" with
    | some (.jarr xs) => sourceLoop (rmvEntry kws σ τ) xs [] f k
    | _ => ([], f, k)
  | _ => ([], f, k)

/-! ### Aggregator (bot.py:263-296) -/

/-- The `seen_urls` set-based deduplication loop (bot.py:285-291); Python set
membership is exact string equality. -/
def dedupGo : List String → List Job → List Job
  | _, [] => []
  | seen, j :: js =>
    if seen.contains j.url then dedupGo seen js
    else j :: dedupGo (j.url :: seen) js

def dedupByUrl (js : List Job) : List Job := dedupGo [] js

/-- `fetch_all_jobs` (bot.py:263-296): run the three adapters in their fixed
order (each already absorbs its own failures, so the defensive `try` around
each invocation is unreachable), concatenate, deduplicate by URL. -/
def fetch_all_jobs (kws : List String) (σ τ : Nat → String) (p1 : Except Unit JVal)
    (p2 : Except Unit (List (List WLi))) (p3 : Except Unit JVal) (f : String) (k : Nat) :
    List Job × String × Nat :=
  let r1 := fetch_remoteok_jobs kws σ τ p1 f k
  let r2 := fetch_wwr_jobs kws σ τ p2 r1.2.1 r1.2.2
  let r3 := fetch_remotive_jobs kws σ τ p3 r2.2.1 r2.2.2
  (dedupByUrl (r1.1 ++ r2.1 ++ r3.1), r3.2.1, r3.2.2)

/-! ### Runner-side apply selection (bot.py:340-399, 298-320) -/

/-- Python truthiness of `job['email']`. -/
def emailTruthy : Option String → Bool
  | none => false
  | some s => !s.isEmpty

def dedupStrGo : List String → List String → List String
  | _, [] => []
  | seen, s :: ss =>
    if seen.contains s then dedupStrGo seen ss
    else s :: dedupStrGo (s :: seen) ss

/-- Insertion order of the `jobs_by_source` dict (Python dicts preserve
first-insertion order). -/
def sourcesInOrder (js : List Job) : List String := dedupStrGo [] (js.map (·.source))

/-- The records for which `run_job_search` invokes `apply_to_job`
(bot.py:372-385): grouped by source in first-appearance order, and only those
with a truthy `email`. -/
def applyTargets (js : List Job) : List Job :=
  (sourcesInOrder js).flatMap fun s =>
    (js.filter fun j => j.source == s).filter fun j => emailTruthy j.email

/-! ### Scheduler loop (bot.py:401-417) -/

/-- What one iteration of `run_continuous`'s `while True` observes:
the cycle completes (`ok`), raises (`exn`), or is interrupted
(`interrupt`, i.e. KeyboardInterrupt, which `except Exception` does not
catch). -/
inductive CycleOutcome
  | ok
  | exn
  | interrupt
deriving DecidableEq

/-- `run_continuous` driven by a schedule of cycle outcomes: returns the list
of sleep durations performed (seconds) and whether the loop terminated.  A
completed cycle sleeps `run_interval_hours * 3600`; a failed cycle sleeps 300
and retries; only an interrupt breaks the loop. -/
def run_continuous (h : Nat) : List CycleOutcome → List Nat × Bool
  | [] => ([], false)
  | .interrupt :: _ => ([], true)
  | .ok :: rest => ((h * 3600) :: (run_continuous h rest).1, (run_continuous h rest).2)
  | .exn :: rest => (300 :: (run_continuous h rest).1, (run_continuous h rest).2)

/-! ## Verification -/

/-! ### C3: first-seen-wins deduplication -/

lemma dedupGo_sublist (seen : List String) (js : List Job) :
    (dedupGo seen js).Sublist js := by
  induction js generalizing seen with
  | nil => simp [dedupGo]
  | cons j js ih =>
    simp only [dedupGo]
    split
    · exact (ih seen).cons j
    · exact (ih (j.url :: seen)).cons₂ j

lemma dedupGo_filter (seen : List String) (js : List Job) (u : String) :
    (dedupGo seen js).filter (fun j => j.url == u) =
      if seen.contains u then [] else (js.filter (fun j => j.url == u)).take 1 := by
  induction js generalizing seen with
  | nil => simp [dedupGo]
  | cons j js ih =>
    simp only [dedupGo, List.filter_cons]
    by_cases hju : j.url = u
    · subst hju
      by_cases hs : seen.contains j.url
      · rw [if_pos hs, ih, if_pos hs, if_pos hs]
      · rw [if_neg hs, List.filter_cons]
        simp only [beq_self_eq_true, if_pos]
        rw [ih, if_pos (by simp [List.contains_cons]), if_neg hs]
        simp
    · have hbu : (j.url == u) = false := beq_eq_false_iff_ne.mpr hju
      by_cases hs : seen.contains j.url
      · rw [if_pos hs, ih]
        simp [hbu]
      · have hcontains : (j.url :: seen).contains u = seen.contains u := by
          simp [List.contains_cons, hju]
          intro h
          exact absurd h.symm hju
        rw [if_neg hs, List.filter_cons, ih, hcontains]
        simp [hbu]

/-- C3: in the Aggregator's deduplication step, when the same URL is emitted
by more than one adapter in a cycle, exactly one record with that URL survives
— the first occurrence of that URL in the concatenation of the adapter results
in invocation order — and the output is a sublist of the input (first-seen
order preserved). -/
theorem c3_dedup_first_seen_wins (j1 j2 j3 : List Job) (u : String) :
    (dedupByUrl (j1 ++ j2 ++ j3)).filter (fun j => j.url == u) =
      ((j1 ++ j2 ++ j3).filter (fun j => j.url == u)).take 1
    ∧ (dedupByUrl (j1 ++ j2 ++ j3)).Sublist (j1 ++ j2 ++ j3) := by
  refine ⟨?_, dedupGo_sublist [] _⟩
  have h := dedupGo_filter [] (j1 ++ j2 ++ j3) u
  simpa [dedupByUrl] using h

/-! ### C5: failure of one adapter is isolated -/

/-- A fetch-level failure of the RemoteOK adapter: transport failure
(network error, timeout, non-2xx, undecodable body) or a decoded body that is
not a list. -/
def rokFetchFailure : Except Unit JVal → Bool
  | .error _ => true
  | .ok (.jarr _) => false
  | .ok _ => true

/-- A fetch-level failure of the Remotive adapter: transport failure or a
decoded body that is not an object. -/
def rmvFetchFailure : Except Unit JVal → Bool
  | .error _ => true
  | .ok (.jobj _) => false
  | .ok _ => true

/-- C5: a fetch-level failure of any single adapter yields `[]` for that
adapter, leaves the ledger untouched, the remaining adapters still run, and
the cycle's aggregated output is the deduplicated union of the successful
adapters' results. -/
theorem c5_adapter_failure_isolated (kws : List String) (σ τ : Nat → String)
    (p1 : Except Unit JVal) (p2 : Except Unit (List (List WLi))) (p3 : Except Unit JVal)
    (f : String) (k : Nat) :
    (rokFetchFailure p1 = true →
      (fetch_remoteok_jobs kws σ τ p1 f k = ([], f, k)
       ∧ fetch_all_jobs kws σ τ p1 p2 p3 f k =
          (let r2 := fetch_wwr_jobs kws σ τ p2 f k
           let r3 := fetch_remotive_jobs kws σ τ p3 r2.2.1 r2.2.2
           (dedupByUrl (r2.1 ++ r3.1), r3.2.1, r3.2.2))))
    ∧ (fetch_wwr_jobs kws σ τ (.error ()) f k = ([], f, k)
       ∧ fetch_all_jobs kws σ τ p1 (.error ()) p3 f k =
          (let r1 := fetch_remoteok_jobs kws σ τ p1 f k
           let r3 := fetch_remotive_jobs kws σ τ p3 r1.2.1 r1.2.2
           (dedupByUrl (r1.1 ++ r3.1), r3.2.1, r3.2.2)))
    ∧ (rmvFetchFailure p3 = true →
      (fetch_remotive_jobs kws σ τ p3 f k = ([], f, k)
       ∧ fetch_all_jobs kws σ τ p1 p2 p3 f k =
          (let r1 := fetch_remoteok_jobs kws σ τ p1 f k
           let r2 := fetch_wwr_jobs kws σ τ p2 r1.2.1 r1.2.2
           (dedupByUrl (r1.1 ++ r2.1), r2.2.1, r2.2.2)))) := by
  refine ⟨?_, ?_, ?_⟩
  · intro h1
    have hr : fetch_remoteok_jobs kws σ τ p1 f k = ([], f, k) := by
      match p1 with
      | .error _ => rfl
      | .ok (.jstr _) => rfl
      | .ok (.jnum _) => rfl
      | .ok .jnull => rfl
      | .ok (.jobj _) => rfl
      | .ok (.jarr _) => simp [rokFetchFailure] at h1
    refine ⟨hr, ?_⟩
    simp only [fetch_all_jobs, hr, List.nil_append]
  · have hr : ∀ f' k', fetch_wwr_jobs kws σ τ (.error ()) f' k' = ([], f', k') :=
      fun _ _ => rfl
    refine ⟨hr f k, ?_⟩
    simp only [fetch_all_jobs, hr, List.append_nil]
  · intro h3
    have hr : ∀ f' k', fetch_remotive_jobs kws σ τ p3 f' k' = ([], f', k') := by
      intro f' k'
      match p3 with
      | .error _ => rfl
      | .ok (.jstr _) => rfl
      | .ok (.jnum _) => rfl
      | .ok .jnull => rfl
      | .ok (.jarr _) => rfl
      | .ok (.jobj _) => simp [rmvFetchFailure] at h3
    refine ⟨hr f k, ?_⟩
    simp only [fetch_all_jobs, hr, List.append_nil]

/-- Witness for C5 at concrete inputs: RemoteOK down with a network error,
Remotive serving a non-object body, while WeWorkRemotely has one matching
listing that is still returned. -/
theorem c5_witness :
    rokFetchFailure (.error ()) = true
    ∧ rmvFetchFailure (.ok (.jstr "Bad Gateway")) = true
    ∧ (fetch_all_jobs ["backend"] (fun _ => "2026-01-01T00:00:00") (fun _ => "2026-01-01 00:00")
        (.error ()) (.ok [[⟨some "/jobs/1", some "Backend Engineer", some "Acme"⟩]])
        (.ok (.jstr "Bad Gateway")) "" 0 =
        (let r2 := fetch_wwr_jobs ["backend"] (fun _ => "2026-01-01T00:00:00")
            (fun _ => "2026-01-01 00:00")
            (.ok [[⟨some "/jobs/1", some "Backend Engineer", some "Acme"⟩]]) "" 0
         let r3 := fetch_remotive_jobs ["backend"] (fun _ => "2026-01-01T00:00:00")
            (fun _ => "2026-01-01 00:00") (.ok (.jstr "Bad Gateway")) r2.2.1 r2.2.2
         (dedupByUrl (r2.1 ++ r3.1), r3.2.1, r3.2.2))) := by
  refine ⟨by decide, by decide, ?_⟩
  exact ((c5_adapter_failure_isolated ["backend"] (fun _ => "2026-01-01T00:00:00")
    (fun _ => "2026-01-01 00:00") (.error ())
    (.ok [[⟨some "/jobs/1", some "Backend Engineer", some "Acme"⟩]])
    (.ok (.jstr "Bad Gateway")) "" 0).1 (by decide)).2

/-! ### C8: the runner loop survives cycle failures -/

lemma run_continuous_stops_iff (h : Nat) (os : List CycleOutcome) :
    (run_continuous h os).2 = true ↔ CycleOutcome.interrupt ∈ os := by
  induction os with
  | nil => simp [run_continuous]
  | cons o os ih => cases o <;> simp [run_continuous, ih]

lemma run_continuous_length (h : Nat) (os : List CycleOutcome)
    (hni : CycleOutcome.interrupt ∉ os) :
    (run_continuous h os).1.length = os.length := by
  induction os with
  | nil => rfl
  | cons o os ih =>
    cases o with
    | interrupt => exact absurd (List.mem_cons_self _ _) hni
    | ok => simpa [run_continuous] using ih fun hm => hni (List.mem_cons_of_mem _ hm)
    | exn => simpa [run_continuous] using ih fun hm => hni (List.mem_cons_of_mem _ hm)

/-- C8: for an hours-scale interval (the shipped configuration uses 12), an
exception inside a cycle is caught, followed by a 300-second cooldown that is
strictly shorter than the normal `h * 3600`-second inter-cycle sleep, and the
loop then starts the next cycle; the loop terminates exactly when the
schedule contains an interrupt, and absent an interrupt every scheduled cycle
runs (one sleep per completed cycle). -/
theorem c8_loop_survives_failures (h : Nat) (os rest : List CycleOutcome) (hh : 1 ≤ h) :
    300 < h * 3600
    ∧ run_continuous h (.exn :: rest) =
        (300 :: (run_continuous h rest).1, (run_continuous h rest).2)
    ∧ ((run_continuous h os).2 = true ↔ CycleOutcome.interrupt ∈ os)
    ∧ (CycleOutcome.interrupt ∉ os → (run_continuous h os).1.length = os.length) := by
  refine ⟨by omega, rfl, run_continuous_stops_iff h os, run_continuous_length h os⟩

/-- Witness for C8 at the shipped 12-hour interval with a schedule containing
a failing cycle followed by further cycles and a final interrupt. -/
theorem c8_witness :
    1 ≤ 12
    ∧ 300 < 12 * 3600
    ∧ run_continuous 12 (.exn :: [.ok, .interrupt]) =
        (300 :: (run_continuous 12 [.ok, .interrupt]).1,
         (run_continuous 12 [.ok, .interrupt]).2)
    ∧ ((run_continuous 12 [.ok, .exn, .interrupt]).2 = true ↔
        CycleOutcome.interrupt ∈ [CycleOutcome.ok, .exn, .interrupt])
    ∧ (CycleOutcome.interrupt ∉ [CycleOutcome.ok, .exn, .interrupt] →
        (run_continuous 12 [.ok, .exn, .interrupt]).1.length = 3) := by
  refine ⟨by decide, ?_, ?_, ?_, ?_⟩
  · exact (c8_loop_survives_failures 12 [.ok, .exn, .interrupt] [.ok, .interrupt] (by decide)).1
  · exact (c8_loop_survives_failures 12 [.ok, .exn, .interrupt] [.ok, .interrupt] (by decide)).2.1
  · exact (c8_loop_survives_failures 12 [.ok, .exn, .interrupt] [.ok, .interrupt] (by decide)).2.2.1
  · exact (c8_loop_survives_failures 12 [.ok, .exn, .interrupt] [.ok, .interrupt] (by decide)).2.2.2

/-! ### C10: WeWorkRemotely records never carry an email, so never trigger apply -/

lemma wwrLi_email_none (kws : List String) (σ τ : Nat → String) (li : WLi) (f : String)
    (k : Nat) (jb : Job) (f' : String) (k' : Nat)
    (h : wwrLi kws σ τ li f k = some (jb, f', k')) : jb.email = none := by
  unfold wwrLi at h
  rcases li with ⟨href, t, c⟩
  cases href with
  | none => simp at h
  | some hr =>
    cases t with
    | none => simp at h
    | some tt =>
      simp only at h
      split at h
      · split at h
        · simp at h
        · simp only [Option.some.injEq, Prod.mk.injEq] at h
          rw [← h.1]
      · simp at h

lemma wwrLoop_email_none (kws : List String) (σ τ : Nat → String) (lis : List WLi)
    (acc : List Job) (f : String) (k : Nat)
    (hacc : ∀ j ∈ acc, j.email = none) :
    ∀ j ∈ (wwrLoop kws σ τ lis acc f k).1, j.email = none := by
  induction lis generalizing acc f k with
  | nil => exact hacc
  | cons li lis ih =>
    simp only [wwrLoop]
    cases hli : wwrLi kws σ τ li f k with
    | none => exact ih acc f k hacc
    | some r =>
      obtain ⟨jb, f', k'⟩ := r
      refine ih (acc ++ [jb]) f' k' ?_
      intro j hj
      rcases List.mem_append.mp hj with hj | hj
      · exact hacc j hj
      · rw [List.mem_singleton.mp hj]
        exact wwrLi_email_none kws σ τ li f k jb f' k' hli

/-- C10: every record emitted by the WeWorkRemotely adapter has no contact
email; `run_job_search` invokes the apply action only for records with a
truthy email; hence no WeWorkRemotely record is ever an apply target. -/
theorem c10_wwr_never_applied (kws : List String) (σ τ : Nat → String)
    (resp : Except Unit (List (List WLi))) (f : String) (k : Nat) :
    (∀ j ∈ (fetch_wwr_jobs kws σ τ resp f k).1, j.email = none)
    ∧ (∀ (js : List Job) (j : Job), j ∈ applyTargets js → emailTruthy j.email = true)
    ∧ (∀ (js : List Job) (j : Job), j ∈ (fetch_wwr_jobs kws σ τ resp f k).1 →
        j ∉ applyTargets js) := by
  have h1 : ∀ j ∈ (fetch_wwr_jobs kws σ τ resp f k).1, j.email = none := by
    cases resp with
    | error e => intro j hj; simp [fetch_wwr_jobs] at hj
    | ok secs =>
      exact wwrLoop_email_none kws σ τ secs.flatten [] f k (by simp)
  have h2 : ∀ (js : List Job) (j : Job), j ∈ applyTargets js → emailTruthy j.email = true := by
    intro js j hj
    simp only [applyTargets, List.mem_flatMap] at hj
    obtain ⟨s, _, hj⟩ := hj
    exact (List.mem_filter.mp hj).2
  refine ⟨h1, h2, ?_⟩
  intro js j hj hcontra
  have := h2 js j hcontra
  rw [h1 j hj] at this
  simp [emailTruthy] at this

/-- Witness for C10: a concrete WeWorkRemotely page with one matching listing;
its record carries no email and is not an apply target even when mixed with a
record (from another source) that does carry one. -/
theorem c10_witness :
    (∀ j ∈ (fetch_wwr_jobs ["backend"] (fun _ => "2026-01-01T00:00:00")
        (fun _ => "2026-01-01 00:00")
        (.ok [[⟨some "/jobs/1", some "Backend Engineer", some "Acme"⟩]]) "" 0).1,
      j.email = none)
    ∧ (⟨"Backend Engineer", "Acme", "https://weworkremotely.com/jobs/1", none,
        "2026-01-01 00:00", "WeWorkRemotely"⟩ : Job) ∉
        applyTargets
          [⟨"Backend Engineer", "Acme", "https://weworkremotely.com/jobs/1", none,
            "2026-01-01 00:00", "WeWorkRemotely"⟩,
           ⟨"python dev", "Unknown", "http://x/1", some "a@b.c", "2026-01-01 00:00", "RemoteOK"⟩] := by
  constructor
  · exact (c10_wwr_never_applied ["backend"] (fun _ => "2026-01-01T00:00:00")
      (fun _ => "2026-01-01 00:00")
      (.ok [[⟨some "/jobs/1", some "Backend Engineer", some "Acme"⟩]]) "" 0).1
  · exact (c10_wwr_never_applied ["backend"] (fun _ => "2026-01-01T00:00:00")
      (fun _ => "2026-01-01 00:00")
      (.ok [[⟨some "/jobs/1", some "Backend Engineer", some "Acme"⟩]]) "" 0).2.2 _ _
      (by decide)

/-! ### C4: a malformed sibling aborts the whole fetch -/

/-- An entry of unexpected shape for the JSON adapters: not a JSON object, so
the very first attribute access (`job.get`) raises. -/
def isNonObjEntry : JVal → Bool
  | .jobj _ => false
  | _ => true

lemma rokEntry_error_of_nonobj (kws : List String) (σ τ : Nat → String) (e : JVal)
    (he : isNonObjEntry e = true) (f : String) (k : Nat) :
    rokEntry kws σ τ e f k = .error () := by
  cases e with
  | jobj fields => simp [isNonObjEntry] at he
  | jstr s => rfl
  | jnum n => rfl
  | jnull => rfl
  | jarr xs => rfl

lemma rmvEntry_error_of_nonobj (kws : List String) (σ τ : Nat → String) (e : JVal)
    (he : isNonObjEntry e = true) (f : String) (k : Nat) :
    rmvEntry kws σ τ e f k = .error () := by
  cases e with
  | jobj fields => simp [isNonObjEntry] at he
  | jstr s => rfl
  | jnum n => rfl
  | jnull => rfl
  | jarr xs => rfl

lemma sourceLoop_nil_of_error (step : JVal → String → Nat → Except Unit (Option (Job × String × Nat)))
    (es : List JVal) (acc : List Job) (f : String) (k : Nat)
    (h : ∃ e ∈ es, ∀ f' k', step e f' k' = .error ()) :
    (sourceLoop step es acc f k).1 = [] := by
  induction es generalizing acc f k with
  | nil => simp at h
  | cons e es ih =>
    obtain ⟨b, hb, hbe⟩ := h
    simp only [sourceLoop]
    rcases List.mem_cons.mp hb with rfl | hb'
    · rw [hbe f k]
    · cases hstep : step e f k with
      | error u => rfl
      | ok o =>
        cases o with
        | none => exact ih acc f k ⟨b, hb', hbe⟩
        | some r =>
          obtain ⟨jb, f', k'⟩ := r
          exact ih (acc ++ [jb]) f' k' ⟨b, hb', hbe⟩

/-- C4 (amended): for both JSON adapters, an entry of unexpected shape among
the decoded entries does not merely get skipped — the exception it raises
unwinds to the fetch-level handler and the whole fetch returns `[]`, dropping
the records of all well-formed siblings as well. -/
theorem c4_amended_bad_sibling_aborts_fetch (kws : List String) (σ τ : Nat → String)
    (xs1 : List JVal) (fs : List (String × JVal)) (xs3 : List JVal) (f : String) (k : Nat)
    (hjobs : jlookup fs "jobs" = some (.jarr xs3)) :
    ((∃ e ∈ xs1.drop 1, isNonObjEntry e = true) →
      (fetch_remoteok_jobs kws σ τ (.ok (.jarr xs1)) f k).1 = [])
    ∧ ((∃ e ∈ xs3, isNonObjEntry e = true) →
      (fetch_remotive_jobs kws σ τ (.ok (.jobj fs)) f k).1 = []) := by
  constructor
  · intro ⟨e, he, hne⟩
    exact sourceLoop_nil_of_error _ _ [] f k
      ⟨e, he, fun f' k' => rokEntry_error_of_nonobj kws σ τ e hne f' k'⟩
  · intro ⟨e, he, hne⟩
    simp only [fetch_remotive_jobs, hjobs]
    exact sourceLoop_nil_of_error _ _ [] f k
      ⟨e, he, fun f' k' => rmvEntry_error_of_nonobj kws σ τ e hne f' k'⟩

/-- Counterexample to C4 as stated: a payload whose second entry is
well-formed and matching and whose third entry is malformed.  Without the
malformed sibling the fetch returns the well-formed record; with it, the
fetch returns `[]` — the sibling is not returned (and its ledger row, already
written before the failure, persists in the file). -/
theorem c4_counterexample :
    (fetch_remoteok_jobs ["python"] (fun _ => "2026-01-01T00:00:00")
        (fun _ => "2026-01-01 00:00")
        (.ok (.jarr [.jnull,
          .jobj [("title", .jstr "python dev"), ("url", .jstr "http://x/1")]])) "" 0).1 =
      [⟨"python dev", "Unknown", "http://x/1", none, "2026-01-01 00:00", "RemoteOK"⟩]
    ∧ (fetch_remoteok_jobs ["python"] (fun _ => "2026-01-01T00:00:00")
        (fun _ => "2026-01-01 00:00")
        (.ok (.jarr [.jnull,
          .jobj [("title", .jstr "python dev"), ("url", .jstr "http://x/1")],
          .jarr []])) "" 0).1 = []
    ∧ (fetch_remoteok_jobs ["python"] (fun _ => "2026-01-01T00:00:00")
        (fun _ => "2026-01-01 00:00")
        (.ok (.jarr [.jnull,
          .jobj [("title", .jstr "python dev"), ("url", .jstr "http://x/1")],
          .jarr []])) "" 0).2.1 =
      "2026-01-01T00:00:00,http://x/1,python dev,Unknown\r\n" := by
  refine ⟨by decide, by decide, by decide⟩

/-- Witness for the amended C4 at a concrete malformed payload. -/
theorem c4_amended_witness :
    (∃ e ∈ ([.jnull,
        .jobj [("title", .jstr "python dev"), ("url", .jstr "http://x/1")],
        .jarr []] : List JVal).drop 1, isNonObjEntry e = true)
    ∧ jlookup [("jobs", .jarr [.jarr []])] "jobs" = some (.jarr [.jarr []])
    ∧ (∃ e ∈ ([.jarr []] : List JVal), isNonObjEntry e = true)
    ∧ (fetch_remoteok_jobs ["python"] (fun _ => "2026-01-01T00:00:00")
        (fun _ => "2026-01-01 00:00")
        (.ok (.jarr [.jnull,
          .jobj [("title", .jstr "python dev"), ("url", .jstr "http://x/1")],
          .jarr []])) "" 0).1 = []
    ∧ (fetch_remotive_jobs ["python"] (fun _ => "2026-01-01T00:00:00")
        (fun _ => "2026-01-01 00:00")
        (.ok (.jobj [("jobs", .jarr [.jarr []])])) "" 0).1 = [] := by
  have hbad1 : ∃ e ∈ ([.jnull,
      .jobj [("title", .jstr "python dev"), ("url", .jstr "http://x/1")],
      .jarr []] : List JVal).drop 1, isNonObjEntry e = true :=
    ⟨.jarr [], by simp, rfl⟩
  have hbad3 : ∃ e ∈ ([.jarr []] : List JVal), isNonObjEntry e = true :=
    ⟨.jarr [], by simp, rfl⟩
  have h := c4_amended_bad_sibling_aborts_fetch ["python"] (fun _ => "2026-01-01T00:00:00")
    (fun _ => "2026-01-01 00:00")
    [.jnull, .jobj [("title", .jstr "python dev"), ("url", .jstr "http://x/1")], .jarr []]
    [("jobs", .jarr [.jarr []])] [.jarr []] "" 0 rfl
  exact ⟨hbad1, rfl, hbad3, h.1 hbad1, h.2 hbad3⟩

/-! ### Ledger lemmas shared by C1 and C6 -/

/-- No double-quote character (so `csv.writer` never rewrites the text). -/
def quoteFree (s : String) : Bool := s.data.all fun c => !(c == '"')

/-- No carriage return and no line feed. -/
def crlfFree (s : String) : Bool := s.data.all fun c => !(c == '\r' || c == '\n')

lemma infix_app_left {u v : List Char} (w : List Char) (h : u <:+: v) : u <:+: w ++ v := by
  obtain ⟨s, t, hst⟩ := h
  exact ⟨w ++ s, t, by rw [← hst]; simp⟩

lemma infix_app_right {u v : List Char} (w : List Char) (h : u <:+: v) : u <:+: v ++ w := by
  obtain ⟨s, t, hst⟩ := h
  exact ⟨s, t ++ w, by rw [← hst]; simp⟩

lemma flatMap_escape_id (l : List Char) (h : ∀ x ∈ l, ¬x = '"') :
    (l.flatMap fun c => if c = '"' then ['"', '"'] else [c]) = l := by
  induction l with
  | nil => rfl
  | cons c cs ih =>
    rw [List.flatMap_cons, if_neg (h c (List.mem_cons_self _ _)),
      ih fun x hx => h x (List.mem_cons_of_mem _ hx)]
    rfl

lemma csvEscape_of_quoteFree (s : String) (h : quoteFree s = true) : csvEscape s = s := by
  unfold csvEscape
  cases s with
  | mk data =>
    simp only [quoteFree, List.all_eq_true] at h
    rw [flatMap_escape_id data fun x hx => by simpa using h x hx]

lemma url_infix_csvField (u : String) (hq : quoteFree u = true) :
    u.data <:+: (csvField u).data := by
  unfold csvField
  split
  · rw [csvEscape_of_quoteFree u hq]
    refine ⟨"\"".data, "\"".data, ?_⟩
    simp [String.data_append]
  · exact List.infix_rfl

lemma url_infix_row (ts url title comp : String) (hq : quoteFree url = true) :
    url.data <:+: (csvRow ts url title comp).data := by
  have h := url_infix_csvField url hq
  have h1 : url.data <:+:
      (csvField url).data ++ (",".data ++ ((csvField title).data ++
        (",".data ++ ((csvField comp).data ++ "\r\n".data)))) :=
    infix_app_right _ h
  have h2 := infix_app_left ((csvField ts).data ++ ",".data) h1
  simpa [csvRow, String.data_append] using h2

lemma ledger_mono (es : List LEntry) (f : String) (u : List Char) (h : u <:+: f.data) :
    u <:+: (es.foldl (fun f e => mark_as_applied f e.ts e.url e.title e.company) f).data := by
  induction es generalizing f with
  | nil => exact h
  | cons e es ih =>
    apply ih
    unfold mark_as_applied
    rw [String.data_append]
    exact infix_app_right _ h

lemma mem_url_infix_ledger (es : List LEntry) (f : String) (u : String)
    (hq : quoteFree u = true) (hmem : ∃ e ∈ es, e.url = u) :
    u.data <:+: (es.foldl (fun f e => mark_as_applied f e.ts e.url e.title e.company) f).data := by
  induction es generalizing f with
  | nil => simp at hmem
  | cons e es ih =>
    rcases hmem with ⟨b, hb, hbu⟩
    rcases List.mem_cons.mp hb with rfl | hb'
    · apply ledger_mono es
      unfold mark_as_applied
      rw [String.data_append]
      apply infix_app_left
      rw [← hbu] at hq ⊢
      exact url_infix_row b.ts b.url b.title b.company hq
    · exact ih _ ⟨b, hb', hbu⟩

/-- C1 (amended): membership in the Ledger is a substring test over the whole
serialized file.  The direction that survives from the claim: if some
appended entry has exactly the queried url (quote-free, CR/LF-free — true of
any real URL), then `contains` answers true.  The converse fails
(`c1_counterexample`). -/
theorem c1_amended_contains_of_appended (es : List LEntry) (u : String)
    (hq : quoteFree u = true) (hcr : crlfFree u = true)
    (hmem : ∃ e ∈ es, e.url = u) :
    job_already_applied (ledgerFile es) u = true := by
  simp only [job_already_applied, strIn, ledgerFile, decide_eq_true_eq]
  exact mem_url_infix_ledger es "" u hq hmem

/-- Counterexample to C1 as stated: after appending the single entry with
url "ab", the membership query for "a" answers true although no appended
entry has url exactly "a" — the query matched a proper substring of the file. -/
theorem c1_counterexample :
    job_already_applied (ledgerFile [⟨"2024-01-01T00:00:00", "ab", "t", "c"⟩]) "a" = true
    ∧ (([⟨"2024-01-01T00:00:00", "ab", "t", "c"⟩] : List LEntry).all
        fun e => e.url != "a") = true := by
  refine ⟨by decide, by decide⟩

/-- Witness for the amended C1. -/
theorem c1_amended_witness :
    quoteFree "http://x/1" = true
    ∧ crlfFree "http://x/1" = true
    ∧ (∃ e ∈ ([⟨"2024-01-01T00:00:00", "http://x/1", "t", "c"⟩] : List LEntry),
        e.url = "http://x/1")
    ∧ job_already_applied
        (ledgerFile [⟨"2024-01-01T00:00:00", "http://x/1", "t", "c"⟩]) "http://x/1" = true := by
  refine ⟨by decide, by decide, ⟨_, List.mem_cons_self _ _, rfl⟩, ?_⟩
  exact c1_amended_contains_of_appended _ "http://x/1" (by decide) (by decide)
    ⟨_, List.mem_cons_self _ _, rfl⟩

/-! ### C6: ledger round-trip -/

lemma csvField_not_mem (s : String) (c : Char) (hc : c ∉ s.data) (hcq : c ≠ '"') :
    c ∉ (csvField s).data := by
  unfold csvField
  split
  · intro hmem
    simp only [String.data_append] at hmem
    rcases List.mem_append.mp hmem with hmem | hmem
    · rcases List.mem_append.mp hmem with hmem | hmem
      · simp only [show ("\"").data = ['"'] from rfl, List.mem_singleton] at hmem
        exact hcq hmem
      · simp only [csvEscape, List.mem_flatMap] at hmem
        obtain ⟨a, ha, hca⟩ := hmem
        by_cases haq : a = '"'
        · rw [if_pos haq] at hca
          simp only [List.mem_cons, List.mem_singleton, List.not_mem_nil, or_false] at hca
          rcases hca with rfl | rfl <;> exact hcq rfl
        · rw [if_neg haq] at hca
          rw [List.mem_singleton.mp hca] at hc
          exact hc ha
    · simp only [show ("\"").data = ['"'] from rfl, List.mem_singleton] at hmem
      exact hcq hmem
  · exact hc

lemma row_count_nl (ts url title comp : String)
    (h1 : '\n' ∉ ts.data) (h2 : '\n' ∉ url.data) (h3 : '\n' ∉ title.data)
    (h4 : '\n' ∉ comp.data) :
    (csvRow ts url title comp).data.count '\n' = 1 := by
  have hq : ('\n' : Char) ≠ '"' := by decide
  have c1 := List.count_eq_zero.mpr (csvField_not_mem ts '\n' h1 hq)
  have c2 := List.count_eq_zero.mpr (csvField_not_mem url '\n' h2 hq)
  have c3 := List.count_eq_zero.mpr (csvField_not_mem title '\n' h3 hq)
  have c4 := List.count_eq_zero.mpr (csvField_not_mem comp '\n' h4 hq)
  simp [csvRow, String.data_append, List.count_append, c1, c2, c3, c4]

lemma getLast?_crlf (A : List Char) : (A ++ ['\r', '\n']).getLast? = some '\n' := by
  rw [show (A ++ ['\r', '\n']) = (A ++ ['\r']) ++ ['\n'] by simp]
  exact List.getLast?_concat _

lemma row_ends_nl (f : String) (ts url title comp : String) :
    ((f ++ csvRow ts url title comp).data).getLast? = some '\n' := by
  have heq : (f ++ csvRow ts url title comp).data =
      (f.data ++ ((csvField ts).data ++ (",".data ++ ((csvField url).data ++
        (",".data ++ ((csvField title).data ++ (",".data ++ (csvField comp).data))))))) ++
        ['\r', '\n'] := by
    simp [csvRow, String.data_append]
  rw [heq, getLast?_crlf]

lemma ledger_fold_count (es : List LEntry) (f : String)
    (hclean : ∀ e ∈ es, '\n' ∉ e.ts.data ∧ '\n' ∉ e.url.data ∧ '\n' ∉ e.title.data ∧
      '\n' ∉ e.company.data) :
    (es.foldl (fun f e => mark_as_applied f e.ts e.url e.title e.company) f).data.count '\n' =
      f.data.count '\n' + es.length := by
  induction es generalizing f with
  | nil => rfl
  | cons e es ih =>
    have he := hclean e (List.mem_cons_self _ _)
    have hrest : ∀ b ∈ es, '\n' ∉ b.ts.data ∧ '\n' ∉ b.url.data ∧ '\n' ∉ b.title.data ∧
        '\n' ∉ b.company.data := fun b hb => hclean b (List.mem_cons_of_mem _ hb)
    simp only [List.foldl_cons]
    rw [ih _ hrest]
    simp only [mark_as_applied, String.data_append, List.count_append,
      row_count_nl e.ts e.url e.title e.company he.1 he.2.1 he.2.2.1 he.2.2.2, List.length_cons]
    omega

lemma ledger_fold_ends_nl (es : List LEntry) (f : String) (hf : endsNL f = true) :
    endsNL (es.foldl (fun f e => mark_as_applied f e.ts e.url e.title e.company) f) = true := by
  induction es generalizing f with
  | nil => exact hf
  | cons e es ih =>
    simp only [List.foldl_cons]
    apply ih
    simp only [endsNL, mark_as_applied, Bool.or_eq_true, beq_iff_eq]
    right
    exact row_ends_nl f e.ts e.url e.title e.company

lemma get_stats_of_endsNL (s : String) (h : endsNL s = true) :
    get_stats_total s = s.data.count '\n' := by
  simp only [endsNL, Bool.or_eq_true, beq_iff_eq] at h
  unfold get_stats_total
  rcases h with h | h
  · rw [if_pos h]
    rw [List.isEmpty_iff.mp h]
    rfl
  · have hne : ¬s.data.isEmpty = true := by
      intro habs
      rw [List.isEmpty_iff.mp habs] at h
      simp at h
    rw [if_neg hne, if_pos (by simpa using h)]
    omega

/-- C6 (amended): appending N entries whose fields are CR/LF-free (true of
the timestamps the code writes and of real titles/companies/urls) and whose
urls are quote-free and pairwise distinct, then reopening the persisted file,
yields `contains(url) = true` for each appended url and `count() = N`.
Without the CR/LF restriction the count can exceed N (`c6_counterexample`). -/
theorem c6_amended_roundtrip (es : List LEntry)
    (hclean : es.all (fun e => crlfFree e.ts && crlfFree e.url && crlfFree e.title &&
      crlfFree e.company) = true)
    (hq : es.all (fun e => quoteFree e.url) = true)
    (hnodup : (es.map LEntry.url).Nodup) :
    (∀ e ∈ es, job_already_applied (ledgerFile es) e.url = true)
    ∧ get_stats_total (ledgerFile es) = es.length := by
  constructor
  · intro e he
    have hqe : quoteFree e.url = true := by
      have := List.all_eq_true.mp hq e he
      simpa using this
    have hcre : crlfFree e.url = true := by
      have := List.all_eq_true.mp hclean e he
      simp only [Bool.and_eq_true] at this
      exact this.1.1.2
    exact c1_amended_contains_of_appended es e.url hqe hcre ⟨e, he, rfl⟩
  · have hclean' : ∀ e ∈ es, '\n' ∉ e.ts.data ∧ '\n' ∉ e.url.data ∧ '\n' ∉ e.title.data ∧
        '\n' ∉ e.company.data := by
      intro e he
      have := List.all_eq_true.mp hclean e he
      simp only [Bool.and_eq_true] at this
      obtain ⟨⟨⟨hts, hurl⟩, htitle⟩, hcomp⟩ := this
      simp only [crlfFree, List.all_eq_true] at hts hurl htitle hcomp
      refine ⟨fun hm => ?_, fun hm => ?_, fun hm => ?_, fun hm => ?_⟩
      · have := hts _ hm; simp at this
      · have := hurl _ hm; simp at this
      · have := htitle _ hm; simp at this
      · have := hcomp _ hm; simp at this
    unfold ledgerFile
    have hends := ledger_fold_ends_nl es "" (by decide)
    rw [get_stats_of_endsNL _ hends, ledger_fold_count es "" hclean']
    simp [show ("".data : List Char) = [] from rfl]

/-- Counterexample to C6 as stated: one append (so N = 1, urls trivially
distinct) whose title contains a newline produces a file whose
`len(readlines())` is 2, so `count()` is not N. -/
theorem c6_counterexample :
    (([⟨"2024-01-01T00:00:00", "http://u", "a\nb", "c"⟩] : List LEntry).map LEntry.url).Nodup
    ∧ get_stats_total (ledgerFile [⟨"2024-01-01T00:00:00", "http://u", "a\nb", "c"⟩]) = 2
    ∧ ([⟨"2024-01-01T00:00:00", "http://u", "a\nb", "c"⟩] : List LEntry).length = 1
    ∧ (2 : Nat) ≠ 1 := by
  refine ⟨by simp, by decide, by decide, by decide⟩

/-- Witness for the amended C6 with two appended entries. -/
theorem c6_amended_witness :
    (([⟨"2024-01-01T00:00:00", "http://x/1", "python dev", "Acme"⟩,
       ⟨"2024-01-01T00:00:01", "http://x/2", "backend dev", "Globex"⟩] : List LEntry).all
      (fun e => crlfFree e.ts && crlfFree e.url && crlfFree e.title && crlfFree e.company)) = true
    ∧ (([⟨"2024-01-01T00:00:00", "http://x/1", "python dev", "Acme"⟩,
         ⟨"2024-01-01T00:00:01", "http://x/2", "backend dev", "Globex"⟩] : List LEntry).all
        fun e => quoteFree e.url) = true
    ∧ ((([⟨"2024-01-01T00:00:00", "http://x/1", "python dev", "Acme"⟩,
          ⟨"2024-01-01T00:00:01", "http://x/2", "backend dev", "Globex"⟩] : List LEntry).map
          LEntry.url).Nodup)
    ∧ (∀ e ∈ ([⟨"2024-01-01T00:00:00", "http://x/1", "python dev", "Acme"⟩,
          ⟨"2024-01-01T00:00:01", "http://x/2", "backend dev", "Globex"⟩] : List LEntry),
        job_already_applied
          (ledgerFile [⟨"2024-01-01T00:00:00", "http://x/1", "python dev", "Acme"⟩,
            ⟨"2024-01-01T00:00:01", "http://x/2", "backend dev", "Globex"⟩]) e.url = true)
    ∧ get_stats_total
        (ledgerFile [⟨"2024-01-01T00:00:00", "http://x/1", "python dev", "Acme"⟩,
          ⟨"2024-01-01T00:00:01", "http://x/2", "backend dev", "Globex"⟩]) = 2 := by
  refine ⟨by decide, by decide, by decide, ?_, ?_⟩
  · exact (c6_amended_roundtrip _ (by decide) (by decide) (by decide)).1
  · exact (c6_amended_roundtrip _ (by decide) (by decide) (by decide)).2

/-! ### C7: email extraction -/

lemma str_empty_data (s : String) : s.isEmpty = true ↔ s.data = [] := by
  rw [show (s.isEmpty = true) = (s.isEmpty : Prop) from rfl]
  rw [String.isEmpty_iff]
  constructor
  · intro h; rw [h]
  · intro h; cases s; simp_all

lemma tw_append_all (p : Char → Bool) (xs ys : List Char) (h : ∀ x ∈ xs, p x = true) :
    (xs ++ ys).takeWhile p = xs ++ ys.takeWhile p := by
  induction xs with
  | nil => rfl
  | cons c cs ih =>
    rw [List.cons_append, List.takeWhile_cons, if_pos (h c (List.mem_cons_self _ _)),
      ih fun x hx => h x (List.mem_cons_of_mem _ hx)]
    rfl

lemma dw_append_all (p : Char → Bool) (xs ys : List Char) (h : ∀ x ∈ xs, p x = true) :
    (xs ++ ys).dropWhile p = ys.dropWhile p := by
  induction xs with
  | nil => rfl
  | cons c cs ih =>
    rw [List.cons_append, List.dropWhile_cons, if_pos (h c (List.mem_cons_self _ _)),
      ih fun x hx => h x (List.mem_cons_of_mem _ hx)]

lemma tw_cons_false (p : Char → Bool) (c : Char) (l : List Char) (h : p c = false) :
    (c :: l).takeWhile p = [] := by
  rw [List.takeWhile_cons, if_neg (by simp [h])]

lemma dw_cons_false (p : Char → Bool) (c : Char) (l : List Char) (h : p c = false) :
    (c :: l).dropWhile p = c :: l := by
  rw [List.dropWhile_cons, if_neg (by simp [h])]

lemma matchEmailAt_blocked (p X : List Char) (hat : '@' ∉ p)
    (hnl : ∃ c ∈ p, isLocalChar c = false) : matchEmailAt (p ++ X) = none := by
  have hdw : p.dropWhile isLocalChar ≠ [] := by
    intro habs
    obtain ⟨c, hc, hcf⟩ := hnl
    have := List.dropWhile_eq_nil_iff.mp habs c hc
    rw [hcf] at this
    exact Bool.false_ne_true this
  obtain ⟨c₀, rest, hsplit⟩ := List.exists_cons_of_ne_nil hdw
  have hc₀ : isLocalChar c₀ = false := by
    have := List.head_dropWhile_not isLocalChar p hdw
    simpa only [hsplit, List.head_cons] using this
  have hc₀at : c₀ ≠ '@' := by
    intro habs
    apply hat
    have hmem : c₀ ∈ p.dropWhile isLocalChar := by rw [hsplit]; exact List.mem_cons_self _ _
    have := (List.dropWhile_sublist isLocalChar (l := p)).subset hmem
    rwa [habs] at this
  have hdecomp : p ++ X = p.takeWhile isLocalChar ++ (c₀ :: (rest ++ X)) := by
    conv_lhs => rw [← List.takeWhile_append_dropWhile (p := isLocalChar) (l := p)]
    rw [hsplit]
    simp
  rw [hdecomp]
  unfold matchEmailAt
  rw [dw_append_all isLocalChar _ _ fun x hx => List.mem_takeWhile_imp hx,
    dw_cons_false _ _ _ hc₀]
  simp only
  split
  · rfl
  · split
    · rename_i heq
      injection heq with h1 h2
      first
      | exact absurd h1 hc₀at
      | exact absurd h1.symm hc₀at
    · rfl

lemma matchEmailAt_run (lp dom tld X : List Char)
    (hl1 : lp ≠ []) (hl2 : ∀ c ∈ lp, isLocalChar c = true)
    (hd1 : dom ≠ []) (hd2 : ∀ c ∈ dom, isDomainChar c = true)
    (ht1 : tld ≠ []) (ht2 : ∀ c ∈ tld, isTldChar c = true) :
    matchEmailAt (lp ++ '@' :: (dom ++ '.' :: (tld ++ X))) =
      some (lp ++ '@' :: (dom ++ '.' :: (tld ++ X.takeWhile isTldChar))) := by
  unfold matchEmailAt
  rw [tw_append_all isLocalChar _ _ hl2, tw_cons_false isLocalChar '@' _ (by decide),
    dw_append_all isLocalChar _ _ hl2, dw_cons_false isLocalChar '@' _ (by decide)]
  simp only [List.append_nil]
  rw [if_neg (by simpa using hl1)]
  rw [tw_append_all isDomainChar _ _ hd2, tw_cons_false isDomainChar '.' _ (by decide),
    dw_append_all isDomainChar _ _ hd2, dw_cons_false isDomainChar '.' _ (by decide)]
  simp only [List.append_nil]
  rw [if_neg (by simpa using hd1)]
  rw [tw_append_all isTldChar _ _ ht2]
  rw [if_neg (by simp [hl1, ht1])]

lemma matchEmailAt_exact (lp dom tld X : List Char)
    (hl1 : lp ≠ []) (hl2 : ∀ c ∈ lp, isLocalChar c = true)
    (hd1 : dom ≠ []) (hd2 : ∀ c ∈ dom, isDomainChar c = true)
    (ht1 : tld ≠ []) (ht2 : ∀ c ∈ tld, isTldChar c = true)
    (hX : X = [] ∨ ∃ c cs, X = c :: cs ∧ isTldChar c = false) :
    matchEmailAt (lp ++ '@' :: (dom ++ '.' :: (tld ++ X))) = some (lp ++ '@' :: (dom ++ '.' :: tld)) := by
  have htwX : X.takeWhile isTldChar = [] := by
    rcases hX with rfl | ⟨c, cs, rfl, hc⟩
    · rfl
    · exact tw_cons_false _ _ _ hc
  rw [matchEmailAt_run lp dom tld X hl1 hl2 hd1 hd2 ht1 ht2, htwX, List.append_nil]

lemma searchEmail_some_of_suffix (a y : List Char) (hy : y ≠ [])
    (h : ∃ m, matchEmailAt y = some m) : searchEmail (a ++ y) ≠ none := by
  induction a with
  | nil =>
    obtain ⟨c, cs, rfl⟩ := List.exists_cons_of_ne_nil hy
    obtain ⟨m, hm⟩ := h
    simp only [List.nil_append, searchEmail, hm]
    exact Option.some_ne_none m
  | cons c a ih =>
    rw [List.cons_append]
    show searchEmail (c :: (a ++ y)) ≠ none
    cases hma : matchEmailAt (c :: (a ++ y)) with
    | some m => simp [searchEmail, hma]
    | none => simpa [searchEmail, hma] using ih

lemma searchEmail_blocked_aux (q : List Char) (d : Char) (tokX m : List Char)
    (hd : isLocalChar d = false)
    (htokX : tokX ≠ []) (hmatch : matchEmailAt tokX = some m) :
    '@' ∉ q ++ [d] → searchEmail ((q ++ [d]) ++ tokX) = some m := by
  induction q with
  | nil =>
    intro hp
    obtain ⟨c, cs, rfl⟩ := List.exists_cons_of_ne_nil htokX
    have hblock : matchEmailAt (d :: (c :: cs)) = none := by
      have h2 := matchEmailAt_blocked [d] (c :: cs) (by simpa using hp)
        ⟨d, List.mem_singleton.mpr rfl, hd⟩
      simpa using h2
    have hstep : searchEmail (d :: (c :: cs)) = searchEmail (c :: cs) := by
      simp only [searchEmail, hblock]
    have hfin : searchEmail (c :: cs) = some m := by
      simp only [searchEmail, hmatch]
    calc searchEmail (([] ++ [d]) ++ (c :: cs)) = searchEmail (d :: (c :: cs)) := by simp
      _ = some m := hstep.trans hfin
  | cons c q ih =>
    intro hp
    have hp' : '@' ∉ q ++ [d] := fun habs => hp (List.mem_cons_of_mem _ habs)
    have hblock : matchEmailAt (c :: ((q ++ [d]) ++ tokX)) = none := by
      have h2 := matchEmailAt_blocked (c :: (q ++ [d])) tokX (by simpa using hp)
        ⟨d, by simp, hd⟩
      simpa using h2
    have h3 : searchEmail (c :: ((q ++ [d]) ++ tokX)) = searchEmail ((q ++ [d]) ++ tokX) := by
      simp only [searchEmail, hblock]
    have h4 := ih hp'
    calc searchEmail ((c :: q ++ [d]) ++ tokX)
        = searchEmail (c :: ((q ++ [d]) ++ tokX)) := by simp
      _ = some m := h3.trans h4

lemma searchEmail_after_blocked (p tokX m : List Char) (hp : '@' ∉ p)
    (hpl : p = [] ∨ ∃ q d, p = q ++ [d] ∧ isLocalChar d = false)
    (htokX : tokX ≠ []) (hmatch : matchEmailAt tokX = some m) :
    searchEmail (p ++ tokX) = some m := by
  rcases hpl with rfl | ⟨q, d, rfl, hd⟩
  · obtain ⟨c, cs, rfl⟩ := List.exists_cons_of_ne_nil htokX
    simp only [List.nil_append, searchEmail, hmatch]
  · exact searchEmail_blocked_aux q d tokX m hd htokX hmatch hp

/-- A string that the email regex matches in full (an "email-shaped token"). -/
def emailShaped (u : String) : Bool := matchEmailAt u.data == some u.data

lemma matchEmailAt_some_elim (cs m : List Char) (h : matchEmailAt cs = some m) :
    cs.takeWhile isLocalChar ≠ [] ∧
    ∃ r2, cs.dropWhile isLocalChar = '@' :: r2 ∧
      r2.takeWhile isDomainChar ≠ [] ∧
      ∃ r4, r2.dropWhile isDomainChar = '.' :: r4 ∧
        r4.takeWhile isTldChar ≠ [] ∧
        m = cs.takeWhile isLocalChar ++ '@' ::
          (r2.takeWhile isDomainChar ++ '.' :: r4.takeWhile isTldChar) := by
  simp only [matchEmailAt] at h
  split at h
  · exact absurd h (by simp)
  · rename_i h1
    split at h
    · rename_i r2 heq
      split at h
      · exact absurd h (by simp)
      · rename_i h2
        split at h
        · rename_i r4 heq2
          split at h
          · exact absurd h (by simp)
          · rename_i h3
            refine ⟨fun habs => h1 (by rw [habs]; rfl), r2, heq,
              fun habs => h2 (by rw [habs]; rfl), r4, heq2,
              fun habs => h3 (by rw [habs]; rfl), ?_⟩
            injection h with h'
            exact h'.symm
        · exact absurd h (by simp)
    · exact absurd h (by simp)

lemma matchEmailAt_extend (u b : List Char) (h : matchEmailAt u = some u) :
    ∃ m, matchEmailAt (u ++ b) = some m := by
  obtain ⟨h1, r2, hdw, h2, r4, hdw2, h3, _⟩ := matchEmailAt_some_elim u u h
  have hu : u = u.takeWhile isLocalChar ++ '@' :: r2 := by
    conv_lhs => rw [← List.takeWhile_append_dropWhile (p := isLocalChar) (l := u)]
    rw [hdw]
  have hr2 : r2 = r2.takeWhile isDomainChar ++ '.' :: r4 := by
    conv_lhs => rw [← List.takeWhile_append_dropWhile (p := isDomainChar) (l := r2)]
    rw [hdw2]
  have hr4 : r4 = r4.takeWhile isTldChar ++ r4.dropWhile isTldChar :=
    (List.takeWhile_append_dropWhile ..).symm
  have hr4b : r4.takeWhile isTldChar ++ (r4.dropWhile isTldChar ++ b) = r4 ++ b := by
    rw [← List.append_assoc, ← hr4]
  have hdecomp : u ++ b = u.takeWhile isLocalChar ++ '@' ::
      (r2.takeWhile isDomainChar ++ '.' ::
        (r4.takeWhile isTldChar ++ (r4.dropWhile isTldChar ++ b))) := by
    rw [hr4b]
    conv_lhs => rw [hu]
    conv_lhs => rw [hr2]
    simp
  have hrun := matchEmailAt_run (u.takeWhile isLocalChar) (r2.takeWhile isDomainChar)
    (r4.takeWhile isTldChar) (r4.dropWhile isTldChar ++ b)
    h1 (fun c hc => List.mem_takeWhile_imp hc)
    h2 (fun c hc => List.mem_takeWhile_imp hc)
    h3 (fun c hc => List.mem_takeWhile_imp hc)
  exact ⟨_, by rw [hdecomp]; exact hrun⟩

/-- C7 (amended): when the description contains `jane.doe@example.com` as a
delimited token — not preceded by an `@` or glued to email-local characters
on the left, and not glued to domain characters on the right — the extracted
`contact_email` is exactly that token (the leftmost match).  An absent or
empty description yields `None`, and a `None` result implies the description
contains no email-shaped substring at all.  Without the delimitation proviso
the claim fails: the match may be a proper superstring of the contained token
(`c7_counterexample`). -/
theorem c7_amended_email_extraction (pre post : String)
    (hpre1 : '@' ∉ pre.data)
    (hpre2 : pre.data = [] ∨ ∃ q d, pre.data = q ++ [d] ∧ isLocalChar d = false)
    (hpost : post.data = [] ∨ ∃ c cs, post.data = c :: cs ∧ isTldChar c = false) :
    extract_email (some (pre ++ "jane.doe@example.com" ++ post)) = some "jane.doe@example.com"
    ∧ extract_email none = none
    ∧ extract_email (some "") = none
    ∧ (∀ s u : String, extract_email (some s) = none → emailShaped u = true →
        strIn u s = false) := by
  have htok : ("jane.doe@example.com").data =
      ("jane.doe").data ++ '@' :: (("example").data ++ '.' :: ("com").data) := by decide
  refine ⟨?_, rfl, by decide, ?_⟩
  · have hmatch : matchEmailAt (("jane.doe@example.com").data ++ post.data) =
        some ("jane.doe@example.com").data := by
      rw [htok]
      rw [show ("jane.doe").data ++ '@' :: (("example").data ++ '.' :: ("com").data) ++ post.data
        = ("jane.doe").data ++ '@' :: (("example").data ++ '.' :: (("com").data ++ post.data))
        from by simp]
      exact matchEmailAt_exact _ _ _ _ (by decide) (by decide) (by decide) (by decide)
        (by decide) (by decide) hpost
    have htokX : ("jane.doe@example.com").data ++ post.data ≠ [] := by
      intro habs
      have := (List.append_eq_nil.mp habs).1
      rw [htok] at this
      simp at this
    have hsearch : searchEmail (pre.data ++ (("jane.doe@example.com").data ++ post.data)) =
        some ("jane.doe@example.com").data :=
      searchEmail_after_blocked pre.data _ _ hpre1 hpre2 htokX hmatch
    have hsdata : (pre ++ "jane.doe@example.com" ++ post).data =
        pre.data ++ (("jane.doe@example.com").data ++ post.data) := by
      simp [String.data_append]
    have hsne : ¬(pre ++ "jane.doe@example.com" ++ post).isEmpty = true := by
      intro habs
      have := (str_empty_data _).mp habs
      rw [hsdata] at this
      exact htokX (List.append_eq_nil.mp this).2
    rw [show extract_email (some (pre ++ "jane.doe@example.com" ++ post)) =
      if (pre ++ "jane.doe@example.com" ++ post).isEmpty = true then none
      else searchEmailStr (pre ++ "jane.doe@example.com" ++ post) from rfl]
    rw [if_neg hsne]
    unfold searchEmailStr
    rw [hsdata, hsearch]
    rfl
  · intro s u hnone hshape
    have hmatch : matchEmailAt u.data = some u.data := by
      have : (matchEmailAt u.data == some u.data) = true := hshape
      exact eq_of_beq this
    have hudata : u.data ≠ [] := by
      intro habs
      rw [habs] at hmatch
      exact absurd hmatch (by decide)
    by_contra hcon
    rw [Bool.not_eq_false] at hcon
    have hinf : u.data <:+: s.data := by
      rw [strIn] at hcon
      exact of_decide_eq_true hcon
    obtain ⟨a, b, hab⟩ := hinf
    have hsome := matchEmailAt_extend u.data b hmatch
    have hne2 : u.data ++ b ≠ [] := fun habs => hudata (List.append_eq_nil.mp habs).1
    have hsearch := searchEmail_some_of_suffix a (u.data ++ b) hne2 hsome
    have hsne : s.data ≠ [] := by
      intro habs
      rw [habs] at hab
      have := List.append_eq_nil.mp hab
      exact hudata (List.append_eq_nil.mp this.1).2
    rw [show extract_email (some s) =
      if s.isEmpty = true then none else searchEmailStr s from rfl] at hnone
    rw [if_neg (fun habs => hsne ((str_empty_data s).mp habs))] at hnone
    unfold searchEmailStr at hnone
    have hnone2 : searchEmail s.data = none := by
      cases hse : searchEmail s.data with
      | none => rfl
      | some v => rw [hse] at hnone; simp at hnone
    rw [← hab, List.append_assoc] at hnone2
    exact hsearch hnone2

/-- Counterexample to C7 as stated: the description `xjane.doe@example.com`
contains the substring `jane.doe@example.com`, but the extracted address is
the longer leftmost match `xjane.doe@example.com`, not that token. -/
theorem c7_counterexample :
    strIn "jane.doe@example.com" "xjane.doe@example.com" = true
    ∧ extract_email (some "xjane.doe@example.com") = some "xjane.doe@example.com"
    ∧ some "xjane.doe@example.com" ≠ some "jane.doe@example.com" := by
  refine ⟨by decide, by decide, by decide⟩

/-- Witness for the amended C7: the token delimited by a space on each side. -/
theorem c7_amended_witness :
    ('@' ∉ ("Contact: ").data)
    ∧ (("Contact: ").data = [] ∨ ∃ q d, ("Contact: ").data = q ++ [d] ∧ isLocalChar d = false)
    ∧ ((" for info").data = [] ∨ ∃ c cs, (" for info").data = c :: cs ∧ isTldChar c = false)
    ∧ extract_email (some ("Contact: " ++ "jane.doe@example.com" ++ " for info")) =
        some "jane.doe@example.com" := by
  have h1 : '@' ∉ ("Contact: ").data := by decide
  have h2 : ("Contact: ").data = [] ∨ ∃ q d, ("Contact: ").data = q ++ [d] ∧
      isLocalChar d = false :=
    Or.inr ⟨("Contact:").data, ' ', by decide, by decide⟩
  have h3 : (" for info").data = [] ∨ ∃ c cs, (" for info").data = c :: cs ∧
      isTldChar c = false :=
    Or.inr ⟨' ', ("for info").data, by decide, by decide⟩
  exact ⟨h1, h2, h3, (c7_amended_email_extraction "Contact: " " for info" h1 h2 h3).1⟩

/-! ### C2/C9: a uniform candidate view of the three adapters.

For payloads whose entries are well-formed (every relevant field a string or
absent — `rokWfEntry`, `rmvWfEntry`; WeWorkRemotely entries are always
well-formed), each adapter's loop body acts like a single `candStep` on a
normalized candidate, and the loops compose into `processCands`.  This is
proved (`fetch_remoteok_norm` etc.), not assumed. -/

/-- A normalized candidate listing, as one adapter examines it. -/
structure Cand where
  matched : Bool
  recTitle : String
  recCompany : String
  url : String
  email : Option String
  source : String
deriving DecidableEq

/-- What each adapter's loop body does once the entry is well-formed: emit
(and write through to the ledger) iff the keyword filter matched, the url is
truthy, and the url is not already in the file. -/
def candStep (σ τ : Nat → String) (c : Cand) (f : String) (k : Nat) :
    Option (Job × String × Nat) :=
  if c.matched && !c.url.isEmpty && !(job_already_applied f c.url) then
    some (⟨c.recTitle, c.recCompany, c.url, c.email, τ k, c.source⟩,
          mark_as_applied f (σ k) c.url c.recTitle c.recCompany, k + 1)
  else none

/-- Sequential candidate processing with write-through, the common core of
the three adapter loops. -/
def processCands (σ τ : Nat → String) : List Cand → String → Nat → List Job × String × Nat
  | [], f, k => ([], f, k)
  | c :: cs, f, k =>
    match candStep σ τ c f k with
    | none => processCands σ τ cs f k
    | some (jb, f', k') =>
      ((jb :: (processCands σ τ cs f' k').1, (processCands σ τ cs f' k').2.1,
        (processCands σ τ cs f' k').2.2))

/-- A JSON value that is a string, or absent — the shapes a field may take in
a well-formed entry. -/
def jstrOpt : Option JVal → Bool
  | none => true
  | some (.jstr _) => true
  | some _ => false

/-- Well-formed RemoteOK entry: an object whose relevant fields are strings
or absent. -/
def rokWfEntry (e : JVal) : Bool :=
  match e with
  | .jobj fs => jstrOpt (jlookup fs "position") && jstrOpt (jlookup fs "title") &&
      jstrOpt (jlookup fs "description") && jstrOpt (jlookup fs "url") &&
      jstrOpt (jlookup fs "company")
  | _ => false

/-- Well-formed Remotive entry. -/
def rmvWfEntry (e : JVal) : Bool :=
  match e with
  | .jobj fs => jstrOpt (jlookup fs "title") && jstrOpt (jlookup fs "description") &&
      jstrOpt (jlookup fs "url") && jstrOpt (jlookup fs "company_name")
  | _ => false

/-- The string value of a string-or-absent field, with its Python default. -/
def asStr (o : Option JVal) (d : String) : String :=
  match o with
  | some (.jstr s) => s
  | _ => d

/-- `job.get("position") or job.get("title", "")` on a well-formed entry. -/
def rokTitleStr (fs : List (String × JVal)) : String :=
  match jlookup fs "position" with
  | some (.jstr s) => if s.isEmpty then asStr (jlookup fs "title") "" else s
  | _ => asStr (jlookup fs "title") ""

/-- The candidate a well-formed RemoteOK entry normalizes to. -/
def rokCand (kws : List String) (e : JVal) : Cand :=
  match e with
  | .jobj fs =>
    { matched := matches_keywords kws (rokTitleStr fs) ||
        matches_keywords kws (asStr (jlookup fs "description") ""),
      recTitle := rokTitleStr fs,
      recCompany := asStr (jlookup fs "company") "Unknown",
      url := asStr (jlookup fs "url") "",
      email := searchEmailStr (asStr (jlookup fs "description") ""),
      source := "RemoteOK" }
  | _ => { matched := false, recTitle := "", recCompany := "", url := "",
           email := none, source := "RemoteOK" }

/-- The candidate a well-formed Remotive entry normalizes to. -/
def rmvCand (kws : List String) (e : JVal) : Cand :=
  match e with
  | .jobj fs =>
    { matched := matches_keywords kws (asStr (jlookup fs "title") "") ||
        matches_keywords kws (asStr (jlookup fs "description") ""),
      recTitle := asStr (jlookup fs "title") "",
      recCompany := asStr (jlookup fs "company_name") "Unknown",
      url := asStr (jlookup fs "url") "",
      email := searchEmailStr (asStr (jlookup fs "description") ""),
      source := "Remotive" }
  | _ => { matched := false, recTitle := "", recCompany := "", url := "",
           email := none, source := "Remotive" }

/-- The candidate a WeWorkRemotely `li` with an anchor normalizes to
(`li`s without an anchor contribute nothing). -/
def wwrCand (kws : List String) (li : WLi) : Option Cand :=
  match li.href with
  | none => none
  | some h => some
    { matched := match li.titleText with
        | some t => matches_keywords kws t
        | none => false,
      recTitle := pyStrip (li.titleText.getD ""),
      recCompany := match li.companyText with
        | some c => pyStrip c
        | none => "Unknown",
      url := "https://weworkremotely.com" ++ h,
      email := none,
      source := "WeWorkRemotely" }

lemma jstrOpt_elim (o : Option JVal) (h : jstrOpt o = true) :
    o = none ∨ ∃ s, o = some (.jstr s) := by
  match o with
  | none => exact Or.inl rfl
  | some (.jstr s) => exact Or.inr ⟨s, rfl⟩
  | some (.jnum _) => simp [jstrOpt] at h
  | some .jnull => simp [jstrOpt] at h
  | some (.jarr _) => simp [jstrOpt] at h
  | some (.jobj _) => simp [jstrOpt] at h

lemma pyMK_str (kws : List String) (s : String) :
    pyMatchesKeywords kws (.jstr s) = .ok (matches_keywords kws s) := by
  cases hse : s.isEmpty with
  | true => simp [pyMatchesKeywords, jTruthy, hse, matches_keywords]
  | false => simp [pyMatchesKeywords, jTruthy, hse]

lemma pyEE_str (s : String) : pyExtractEmail (.jstr s) = .ok (searchEmailStr s) := by
  cases hse : s.isEmpty with
  | true =>
    have hd : s.data = [] := (str_empty_data s).mp hse
    simp [pyExtractEmail, jTruthy, hse, searchEmailStr, hd, searchEmail]
  | false => simp [pyExtractEmail, jTruthy, hse]

lemma getD_jstr_of_wf (o : Option JVal) (d : String) (h : jstrOpt o = true) :
    o.getD (.jstr d) = .jstr (asStr o d) := by
  rcases jstrOpt_elim o h with rfl | ⟨s, rfl⟩ <;> rfl

lemma rokTitleV_eq (fs : List (String × JVal)) (hpos : jstrOpt (jlookup fs "position") = true)
    (htit : jstrOpt (jlookup fs "title") = true) :
    (match jlookup fs "position" with
     | some v => if jTruthy v then v else (jlookup fs "title").getD (.jstr "")
     | none => (jlookup fs "title").getD (.jstr "")) = .jstr (rokTitleStr fs) := by
  rcases jstrOpt_elim _ hpos with hp | ⟨ps, hp⟩
  · rw [hp]
    simp only [rokTitleStr, hp]
    exact getD_jstr_of_wf _ _ htit
  · rw [hp]
    simp only [rokTitleStr, hp]
    cases hps : ps.isEmpty with
    | true => simp [jTruthy, hps, getD_jstr_of_wf _ _ htit]
    | false => simp [jTruthy, hps]

lemma rokEntry_eq_candStep (kws : List String) (σ τ : Nat → String) (e : JVal)
    (f : String) (k : Nat) (hwf : rokWfEntry e = true) :
    rokEntry kws σ τ e f k = .ok (candStep σ τ (rokCand kws e) f k) := by
  match e with
  | .jstr _ => simp [rokWfEntry] at hwf
  | .jnum _ => simp [rokWfEntry] at hwf
  | .jnull => simp [rokWfEntry] at hwf
  | .jarr _ => simp [rokWfEntry] at hwf
  | .jobj fs =>
    simp only [rokWfEntry, Bool.and_eq_true] at hwf
    obtain ⟨⟨⟨⟨hpos, htit⟩, hdesc⟩, hurl⟩, hcomp⟩ := hwf
    simp only [rokEntry, rokCand]
    rw [rokTitleV_eq fs hpos htit, getD_jstr_of_wf _ _ hdesc, getD_jstr_of_wf _ _ hurl,
      getD_jstr_of_wf _ _ hcomp, pyMK_str, pyMK_str, pyEE_str]
    by_cases hmT : matches_keywords kws (rokTitleStr fs) = true <;>
    by_cases hmD : matches_keywords kws (asStr (jlookup fs "description") "") = true <;>
    by_cases hU : (asStr (jlookup fs "url") "").isEmpty = true <;>
    by_cases hC : job_already_applied f (asStr (jlookup fs "url") "") = true <;>
    simp [candStep, jTruthy, pyStr, hmT, hmD, hU, hC]

lemma rmvEntry_eq_candStep (kws : List String) (σ τ : Nat → String) (e : JVal)
    (f : String) (k : Nat) (hwf : rmvWfEntry e = true) :
    rmvEntry kws σ τ e f k = .ok (candStep σ τ (rmvCand kws e) f k) := by
  match e with
  | .jstr _ => simp [rmvWfEntry] at hwf
  | .jnum _ => simp [rmvWfEntry] at hwf
  | .jnull => simp [rmvWfEntry] at hwf
  | .jarr _ => simp [rmvWfEntry] at hwf
  | .jobj fs =>
    simp only [rmvWfEntry, Bool.and_eq_true] at hwf
    obtain ⟨⟨⟨htit, hdesc⟩, hurl⟩, hcomp⟩ := hwf
    simp only [rmvEntry, rmvCand]
    rw [getD_jstr_of_wf _ _ htit, getD_jstr_of_wf _ _ hdesc, getD_jstr_of_wf _ _ hurl,
      getD_jstr_of_wf _ _ hcomp, pyMK_str, pyMK_str, pyEE_str]
    by_cases hmT : matches_keywords kws (asStr (jlookup fs "title") "") = true <;>
    by_cases hmD : matches_keywords kws (asStr (jlookup fs "description") "") = true <;>
    by_cases hU : (asStr (jlookup fs "url") "").isEmpty = true <;>
    by_cases hC : job_already_applied f (asStr (jlookup fs "url") "") = true <;>
    simp [candStep, jTruthy, pyStr, hmT, hmD, hU, hC]

lemma wwrLi_eq_candStep (kws : List String) (σ τ : Nat → String) (li : WLi)
    (f : String) (k : Nat) :
    wwrLi kws σ τ li f k =
      (match wwrCand kws li with
       | none => none
       | some c => candStep σ τ c f k) := by
  rcases li with ⟨href, t, c⟩
  cases href with
  | none => rfl
  | some h =>
    cases t with
    | none => simp [wwrLi, wwrCand, candStep]
    | some tt =>
      by_cases hm : matches_keywords kws tt = true
      · by_cases hc : job_already_applied f ("https://weworkremotely.com" ++ h) = true
        · simp [wwrLi, wwrCand, candStep, hm, hc]
        · have hne : ("https://weworkremotely.com" ++ h).isEmpty = false := by
            cases hi : ("https://weworkremotely.com" ++ h).isEmpty
            · rfl
            · exfalso
              have := (str_empty_data _).mp hi
              rw [String.data_append] at this
              exact absurd (List.append_eq_nil.mp this).1 (by decide)
          simp [wwrLi, wwrCand, candStep, hm, hc, hne]
      · simp [wwrLi, wwrCand, candStep, hm]

lemma sourceLoop_norm (step : JVal → String → Nat → Except Unit (Option (Job × String × Nat)))
    (candOf : JVal → Cand) (σ τ : Nat → String) (es : List JVal)
    (hstep : ∀ e ∈ es, ∀ f k, step e f k = .ok (candStep σ τ (candOf e) f k)) :
    ∀ acc f k, sourceLoop step es acc f k =
      (acc ++ (processCands σ τ (es.map candOf) f k).1,
       (processCands σ τ (es.map candOf) f k).2.1,
       (processCands σ τ (es.map candOf) f k).2.2) := by
  induction es with
  | nil => intro acc f k; simp [sourceLoop, processCands]
  | cons e es ih =>
    intro acc f k
    have hrest : ∀ b ∈ es, ∀ f k, step b f k = .ok (candStep σ τ (candOf b) f k) :=
      fun b hb => hstep b (List.mem_cons_of_mem _ hb)
    simp only [sourceLoop, hstep e (List.mem_cons_self _ _) f k, List.map_cons, processCands]
    cases hcs : candStep σ τ (candOf e) f k with
    | none => exact ih hrest acc f k
    | some r =>
      obtain ⟨jb, f', k'⟩ := r
      have h2 := ih hrest (acc ++ [jb]) f' k'
      simp [h2]

lemma wwrLoop_norm (kws : List String) (σ τ : Nat → String) (lis : List WLi) :
    ∀ acc f k, wwrLoop kws σ τ lis acc f k =
      (acc ++ (processCands σ τ (lis.filterMap (wwrCand kws)) f k).1,
       (processCands σ τ (lis.filterMap (wwrCand kws)) f k).2.1,
       (processCands σ τ (lis.filterMap (wwrCand kws)) f k).2.2) := by
  induction lis with
  | nil => intro acc f k; simp [wwrLoop, processCands]
  | cons li lis ih =>
    intro acc f k
    simp only [wwrLoop, wwrLi_eq_candStep]
    cases hwc : wwrCand kws li with
    | none =>
      simp only [List.filterMap_cons, hwc]
      exact ih acc f k
    | some c =>
      simp only [List.filterMap_cons, hwc, processCands]
      cases hcs : candStep σ τ c f k with
      | none => exact ih acc f k
      | some r =>
        obtain ⟨jb, f', k'⟩ := r
        have h2 := ih (acc ++ [jb]) f' k'
        simp [h2]

lemma processCands_append (σ τ : Nat → String) (cs1 cs2 : List Cand) : ∀ f k,
    processCands σ τ (cs1 ++ cs2) f k =
      ((processCands σ τ cs1 f k).1 ++
        (processCands σ τ cs2 (processCands σ τ cs1 f k).2.1 (processCands σ τ cs1 f k).2.2).1,
       (processCands σ τ cs2 (processCands σ τ cs1 f k).2.1 (processCands σ τ cs1 f k).2.2).2.1,
       (processCands σ τ cs2 (processCands σ τ cs1 f k).2.1 (processCands σ τ cs1 f k).2.2).2.2) := by
  induction cs1 with
  | nil => intro f k; simp [processCands]
  | cons c cs ih =>
    intro f k
    simp only [List.cons_append, processCands]
    cases hcs : candStep σ τ c f k with
    | none => exact ih f k
    | some r =>
      obtain ⟨jb, f', k'⟩ := r
      have h2 := ih f' k'
      simp [h2]

lemma fetch_remoteok_norm (kws : List String) (σ τ : Nat → String) (xs : List JVal)
    (f : String) (k : Nat) (hwf : ∀ e ∈ xs.drop 1, rokWfEntry e = true) :
    fetch_remoteok_jobs kws σ τ (.ok (.jarr xs)) f k =
      processCands σ τ ((xs.drop 1).map (rokCand kws)) f k := by
  show sourceLoop (rokEntry kws σ τ) (xs.drop 1) [] f k = _
  rw [sourceLoop_norm (rokEntry kws σ τ) (rokCand kws) σ τ (xs.drop 1)
    (fun e he f' k' => rokEntry_eq_candStep kws σ τ e f' k' (hwf e he)) [] f k]
  simp

lemma fetch_wwr_norm (kws : List String) (σ τ : Nat → String) (secs : List (List WLi))
    (f : String) (k : Nat) :
    fetch_wwr_jobs kws σ τ (.ok secs) f k =
      processCands σ τ (secs.flatten.filterMap (wwrCand kws)) f k := by
  show wwrLoop kws σ τ secs.flatten [] f k = _
  rw [wwrLoop_norm kws σ τ secs.flatten [] f k]
  simp

lemma fetch_remotive_norm (kws : List String) (σ τ : Nat → String)
    (fs : List (String × JVal)) (xs : List JVal) (f : String) (k : Nat)
    (hjobs : jlookup fs "jobs" = some (.jarr xs))
    (hwf : ∀ e ∈ xs, rmvWfEntry e = true) :
    fetch_remotive_jobs kws σ τ (.ok (.jobj fs)) f k =
      processCands σ τ (xs.map (rmvCand kws)) f k := by
  simp only [fetch_remotive_jobs]
  rw [hjobs]
  show sourceLoop (rmvEntry kws σ τ) xs [] f k = _
  rw [sourceLoop_norm (rmvEntry kws σ τ) (rmvCand kws) σ τ xs
    (fun e he f' k' => rmvEntry_eq_candStep kws σ τ e f' k' (hwf e he)) [] f k]
  simp

/-- All candidates of one cycle, in adapter invocation order. -/
def allCands (kws : List String) (xs1 : List JVal) (secs : List (List WLi))
    (xs3 : List JVal) : List Cand :=
  ((xs1.drop 1).map (rokCand kws) ++ secs.flatten.filterMap (wwrCand kws)) ++
    xs3.map (rmvCand kws)

lemma fetch_all_norm (kws : List String) (σ τ : Nat → String) (xs1 : List JVal)
    (secs : List (List WLi)) (fs : List (String × JVal)) (xs3 : List JVal)
    (f : String) (k : Nat)
    (hwf1 : ∀ e ∈ xs1.drop 1, rokWfEntry e = true)
    (hjobs : jlookup fs "jobs" = some (.jarr xs3))
    (hwf3 : ∀ e ∈ xs3, rmvWfEntry e = true) :
    fetch_all_jobs kws σ τ (.ok (.jarr xs1)) (.ok secs) (.ok (.jobj fs)) f k =
      (dedupByUrl (processCands σ τ (allCands kws xs1 secs xs3) f k).1,
       (processCands σ τ (allCands kws xs1 secs xs3) f k).2.1,
       (processCands σ τ (allCands kws xs1 secs xs3) f k).2.2) := by
  simp only [fetch_all_jobs, allCands]
  rw [fetch_remoteok_norm kws σ τ xs1 f k hwf1]
  rw [fetch_wwr_norm kws σ τ secs]
  rw [fetch_remotive_norm kws σ τ fs xs3 _ _ hjobs hwf3]
  rw [processCands_append, processCands_append]

/-! ### Substring decomposition across CSV row boundaries -/

lemma prefix_mid {α : Type} (u y z : List α) (c : α) (hc : c ∉ u)
    (h : u <+: y ++ c :: z) : u <+: y := by
  induction y generalizing u with
  | nil =>
    cases u with
    | nil => exact List.nil_prefix
    | cons x u' =>
      obtain ⟨t, ht⟩ := h
      rw [List.nil_append, List.cons_append] at ht
      injection ht with h1 h2
      exact absurd (h1 ▸ List.mem_cons_self x u') hc
  | cons y0 y' ih =>
    cases u with
    | nil => exact List.nil_prefix
    | cons x u' =>
      rw [List.cons_append] at h
      rcases List.cons_prefix_cons.mp h with ⟨rfl, h'⟩
      exact List.cons_prefix_cons.mpr
        ⟨rfl, ih u' (fun hm => hc (List.mem_cons_of_mem _ hm)) h'⟩

lemma cons_mid {α : Type} [DecidableEq α] (u a b : List α) (c : α) (hc : c ∉ u) :
    u <:+: a ++ c :: b ↔ u <:+: a ∨ u <:+: b := by
  induction a with
  | nil =>
    constructor
    · intro h
      rcases u with _ | ⟨x, u'⟩
      · exact Or.inl List.nil_infix
      · obtain ⟨s, t, hst⟩ := h
        cases s with
        | nil =>
          rw [List.nil_append, List.nil_append, List.cons_append] at hst
          injection hst with h1 h2
          exact absurd (h1 ▸ List.mem_cons_self x u') hc
        | cons s0 s' =>
          rw [List.nil_append, List.cons_append] at hst
          injection hst with h1 h2
          exact Or.inr ⟨s', t, h2⟩
    · intro h
      rcases h with h | h
      · obtain ⟨s, t, hst⟩ := h
        have : u = [] := by
          have := List.append_eq_nil.mp hst
          exact (List.append_eq_nil.mp this.1).2
        rw [this]
        exact List.nil_infix
      · exact List.infix_cons h
  | cons a0 a' ih =>
    rw [List.cons_append]
    constructor
    · intro h
      rcases List.infix_cons_iff.mp h with hpre | hinf
      · left
        have := prefix_mid u (a0 :: a') b c hc (by rwa [List.cons_append])
        exact this.isInfix
      · rcases ih.mp hinf with h2 | h2
        · exact Or.inl (List.infix_cons h2)
        · exact Or.inr h2
    · intro h
      rcases h with h | h
      · obtain ⟨s, t, hst⟩ := h
        refine ⟨s, t ++ c :: b, ?_⟩
        calc s ++ u ++ (t ++ c :: b) = (s ++ u ++ t) ++ c :: b := by simp
          _ = (a0 :: a') ++ c :: b := by rw [hst]
          _ = a0 :: (a' ++ c :: b) := by simp
      · obtain ⟨s, t, hst⟩ := h
        refine ⟨a0 :: (a' ++ c :: s), t, ?_⟩
        calc (a0 :: (a' ++ c :: s)) ++ u ++ t
            = a0 :: (a' ++ c :: (s ++ u ++ t)) := by simp
          _ = a0 :: (a' ++ c :: b) := by rw [hst]

lemma csvField_of_clean (s : String) (h : cleanField s = true) : csvField s = s := by
  unfold csvField
  rw [if_neg]
  intro habs
  simp only [List.any_eq_true] at habs
  obtain ⟨c, hc, hcp⟩ := habs
  simp only [cleanField, List.all_eq_true] at h
  have := h c hc
  rw [hcp] at this
  simp at this

lemma cleanField_not_mem (s : String) (h : cleanField s = true) :
    ',' ∉ s.data ∧ '"' ∉ s.data ∧ '\r' ∉ s.data ∧ '\n' ∉ s.data := by
  simp only [cleanField, List.all_eq_true] at h
  refine ⟨fun hm => ?_, fun hm => ?_, fun hm => ?_, fun hm => ?_⟩ <;>
    · have := h _ hm
      simp at this

lemma infix_nil_iff (u : List Char) : (u <:+: ([] : List Char)) ↔ u = [] :=
  ⟨List.eq_nil_of_infix_nil, fun h => h ▸ List.nil_infix⟩

lemma infix_endNL_append (u F rest : List Char) (hun : '\n' ∉ u) (hu0 : u ≠ [])
    (hF : F = [] ∨ ∃ F', F = F' ++ ['\n']) :
    (u <:+: F ++ rest) ↔ (u <:+: F ∨ u <:+: rest) := by
  rcases hF with rfl | ⟨F', rfl⟩
  · rw [List.nil_append, infix_nil_iff]
    simp [hu0]
  · have h1 : (F' ++ ['\n']) ++ rest = F' ++ '\n' :: rest := by simp
    rw [h1, cons_mid u F' rest '\n' hun]
    have h2 : F' ++ ['\n'] = F' ++ '\n' :: ([] : List Char) := rfl
    rw [h2, cons_mid u F' [] '\n' hun, infix_nil_iff]
    simp [hu0]

lemma strIn_append_row (u f ts url title comp : String)
    (hu : cleanField u = true)
    (hts : cleanField ts = true) (hurl : cleanField url = true)
    (htitle : cleanField title = true) (hcomp : cleanField comp = true)
    (hf : endsNL f = true) :
    strIn u (f ++ csvRow ts url title comp) =
      (strIn u f || strIn u ts || strIn u url || strIn u title || strIn u comp) := by
  obtain ⟨huc, _, hur, hun⟩ := cleanField_not_mem u hu
  by_cases hu0 : u.data = []
  · have h1 : ∀ s : String, strIn u s = true := fun s => by
      simp [strIn, hu0, List.nil_infix]
    rw [h1, h1]
    simp
  · have hsh : f.data = [] ∨ ∃ F', f.data = F' ++ ['\n'] := by
      simp only [endsNL, Bool.or_eq_true, List.isEmpty_iff, beq_iff_eq] at hf
      rcases hf with h | h
      · exact Or.inl h
      · exact Or.inr (List.getLast?_eq_some_iff.mp h)
    have hrow : (f ++ csvRow ts url title comp).data =
        f.data ++ (ts.data ++ ',' :: (url.data ++ ',' :: (title.data ++ ',' ::
          (comp.data ++ '\r' :: '\n' :: [])))) := by
      rw [csvRow, csvField_of_clean _ hts, csvField_of_clean _ hurl,
        csvField_of_clean _ htitle, csvField_of_clean _ hcomp]
      simp [String.data_append, show (",").data = [','] from rfl,
        show ("\r\n").data = ['\r', '\n'] from rfl]
    rw [Bool.eq_iff_iff]
    simp only [strIn, decide_eq_true_eq, Bool.or_eq_true]
    rw [hrow]
    rw [infix_endNL_append u.data f.data _ hun hu0 hsh]
    rw [cons_mid u.data ts.data _ ',' huc]
    rw [cons_mid u.data url.data _ ',' huc]
    rw [cons_mid u.data title.data _ ',' huc]
    rw [cons_mid u.data comp.data _ '\r' hur]
    have h5 : (u.data <:+: ['\n']) ↔ False := by
      rw [show (['\n'] : List Char) = [] ++ '\n' :: [] from rfl,
        cons_mid u.data [] [] '\n' hun, infix_nil_iff]
      simp [hu0]
    rw [h5]
    tauto

/-! ### The pure characterization of one cycle's emissions -/

/-- Whether the serialized row of candidate `c` could contain `u` as a
substring: `u` occurs in `c`'s url, title or company. -/
def hitRow (u : String) (c : Cand) : Bool :=
  strIn u c.url || strIn u c.recTitle || strIn u c.recCompany

/-- The records a cycle emits, computed from the initial file only: a
candidate is emitted iff it matches, has a nonempty url, and its url occurs
neither in the initial file nor in the row of a previously emitted candidate. -/
def emitJobs (f0 : String) (τ : Nat → String) : List Cand → List Cand → Nat → List Job
  | [], _, _ => []
  | c :: cs, acc, k =>
    if c.matched && !c.url.isEmpty && !(strIn c.url f0 || acc.any (hitRow c.url)) then
      ⟨c.recTitle, c.recCompany, c.url, c.email, τ k, c.source⟩ ::
        emitJobs f0 τ cs (acc ++ [c]) (k + 1)
    else emitJobs f0 τ cs acc k

lemma processCands_emitJobs (σ τ : Nat → String) (f0 : String)
    (Hσ : ∀ j, cleanField (σ j) = true) (cands : List Cand) :
    ∀ (acc : List Cand) (fcur : String) (k : Nat),
      endsNL fcur = true →
      (∀ u : String, cleanField u = true → (∀ j, strIn u (σ j) = false) →
        strIn u fcur = (strIn u f0 || acc.any (hitRow u))) →
      (∀ c ∈ cands, cleanField c.url = true ∧ cleanField c.recTitle = true ∧
        cleanField c.recCompany = true) →
      (∀ c ∈ cands, ∀ j, strIn c.url (σ j) = false) →
      (processCands σ τ cands fcur k).1 = emitJobs f0 τ cands acc k := by
  induction cands with
  | nil => intro acc fcur k _ _ _ _; rfl
  | cons c cs ih =>
    intro acc fcur k Hend Hcur Hc Hts
    have hc := Hc c (List.mem_cons_self _ _)
    have hcts := Hts c (List.mem_cons_self _ _)
    have Hc' : ∀ b ∈ cs, cleanField b.url = true ∧ cleanField b.recTitle = true ∧
        cleanField b.recCompany = true := fun b hb => Hc b (List.mem_cons_of_mem _ hb)
    have Hts' : ∀ b ∈ cs, ∀ j, strIn b.url (σ j) = false :=
      fun b hb => Hts b (List.mem_cons_of_mem _ hb)
    have hcheck : job_already_applied fcur c.url = (strIn c.url f0 || acc.any (hitRow c.url)) :=
      Hcur c.url hc.1 hcts
    simp only [processCands, candStep, emitJobs, hcheck]
    by_cases hcond :
      (c.matched && !c.url.isEmpty && !(strIn c.url f0 || acc.any (hitRow c.url))) = true
    · simp only [if_pos hcond]
      have Hend' : endsNL (mark_as_applied fcur (σ k) c.url c.recTitle c.recCompany) = true := by
        simp only [endsNL, Bool.or_eq_true, beq_iff_eq]
        right
        exact row_ends_nl fcur (σ k) c.url c.recTitle c.recCompany
      have Hcur' : ∀ u : String, cleanField u = true → (∀ j, strIn u (σ j) = false) →
          strIn u (mark_as_applied fcur (σ k) c.url c.recTitle c.recCompany) =
            (strIn u f0 || (acc ++ [c]).any (hitRow u)) := by
        intro u huc huts
        rw [show mark_as_applied fcur (σ k) c.url c.recTitle c.recCompany =
          fcur ++ csvRow (σ k) c.url c.recTitle c.recCompany from rfl]
        rw [strIn_append_row u fcur (σ k) c.url c.recTitle c.recCompany huc (Hσ k)
          hc.1 hc.2.1 hc.2.2 Hend]
        rw [Hcur u huc huts, huts k]
        rw [Bool.eq_iff_iff]
        simp only [Bool.or_eq_true, List.any_append, List.any_cons, List.any_nil, hitRow]
        tauto
      exact congrArg (List.cons _)
        (ih (acc ++ [c]) (mark_as_applied fcur (σ k) c.url c.recTitle c.recCompany)
          (k + 1) Hend' Hcur' Hc' Hts')
    · simp only [if_neg hcond]
      exact ih acc fcur k Hend Hcur Hc' Hts'

lemma processCands_emitJobs_top (σ τ : Nat → String) (f0 : String)
    (Hσ : ∀ j, cleanField (σ j) = true) (cands : List Cand) (k : Nat)
    (hf0 : endsNL f0 = true)
    (Hc : ∀ c ∈ cands, cleanField c.url = true ∧ cleanField c.recTitle = true ∧
      cleanField c.recCompany = true)
    (Hts : ∀ c ∈ cands, ∀ j, strIn c.url (σ j) = false) :
    (processCands σ τ cands f0 k).1 = emitJobs f0 τ cands [] k :=
  processCands_emitJobs σ τ f0 Hσ cands [] f0 k hf0 (fun u _ _ => by simp) Hc Hts

lemma emitJobs_map_eraseDate (f0 : String) (τ τ' : Nat → String) (cands : List Cand) :
    ∀ (acc : List Cand) (k k' : Nat),
      (emitJobs f0 τ cands acc k).map eraseDate =
        (emitJobs f0 τ' cands acc k').map eraseDate := by
  induction cands with
  | nil => intro acc k k'; rfl
  | cons c cs ih =>
    intro acc k k'
    simp only [emitJobs]
    split
    · simp only [List.map_cons, eraseDate]
      rw [ih (acc ++ [c]) (k + 1) (k' + 1)]
    · exact ih acc k k'

lemma dedupGo_map_erase (seen : List String) (js : List Job) :
    dedupGo seen (js.map eraseDate) = (dedupGo seen js).map eraseDate := by
  induction js generalizing seen with
  | nil => rfl
  | cons j js ih =>
    simp only [List.map_cons, dedupGo]
    have hurl : (eraseDate j).url = j.url := rfl
    rw [hurl]
    split
    · exact ih seen
    · simp only [List.map_cons]
      rw [ih (j.url :: seen)]

/-- C9 (amended): over well-formed payloads whose candidate fields are
CSV-inert and whose urls do not occur inside any row timestamp of either run,
two runs of the cycle from the same initial ledger file, the same keywords
and the same payloads return the same records up to the `date` field, even
though the two runs write different row timestamps and record dates.  Without
the url-not-in-timestamp proviso the claim fails (`c9_counterexample`):
membership is a substring test over a file that contains the timestamps. -/
theorem c9_amended_two_run_determinism (kws : List String) (σ₁ τ₁ σ₂ τ₂ : Nat → String)
    (xs1 : List JVal) (secs : List (List WLi)) (fs : List (String × JVal)) (xs3 : List JVal)
    (f0 : String)
    (hwf1 : ∀ e ∈ xs1.drop 1, rokWfEntry e = true)
    (hjobs : jlookup fs "jobs" = some (.jarr xs3))
    (hwf3 : ∀ e ∈ xs3, rmvWfEntry e = true)
    (hf0 : endsNL f0 = true)
    (hclean : ∀ c ∈ allCands kws xs1 secs xs3, cleanField c.url = true ∧
      cleanField c.recTitle = true ∧ cleanField c.recCompany = true)
    (hσ₁ : ∀ j, cleanField (σ₁ j) = true) (hσ₂ : ∀ j, cleanField (σ₂ j) = true)
    (hts₁ : ∀ j, ∀ c ∈ allCands kws xs1 secs xs3, strIn c.url (σ₁ j) = false)
    (hts₂ : ∀ j, ∀ c ∈ allCands kws xs1 secs xs3, strIn c.url (σ₂ j) = false) :
    ((fetch_all_jobs kws σ₁ τ₁ (.ok (.jarr xs1)) (.ok secs) (.ok (.jobj fs)) f0 0).1).map
        eraseDate =
      ((fetch_all_jobs kws σ₂ τ₂ (.ok (.jarr xs1)) (.ok secs) (.ok (.jobj fs)) f0 0).1).map
        eraseDate := by
  rw [fetch_all_norm kws σ₁ τ₁ xs1 secs fs xs3 f0 0 hwf1 hjobs hwf3,
      fetch_all_norm kws σ₂ τ₂ xs1 secs fs xs3 f0 0 hwf1 hjobs hwf3]
  dsimp only
  have h1 := processCands_emitJobs_top σ₁ τ₁ f0 hσ₁ (allCands kws xs1 secs xs3) 0 hf0 hclean
    (fun c hc j => hts₁ j c hc)
  have h2 := processCands_emitJobs_top σ₂ τ₂ f0 hσ₂ (allCands kws xs1 secs xs3) 0 hf0 hclean
    (fun c hc j => hts₂ j c hc)
  have hkey : (processCands σ₁ τ₁ (allCands kws xs1 secs xs3) f0 0).1.map eraseDate =
      (processCands σ₂ τ₂ (allCands kws xs1 secs xs3) f0 0).1.map eraseDate := by
    rw [h1, h2]
    exact emitJobs_map_eraseDate f0 τ₁ τ₂ _ [] 0 0
  unfold dedupByUrl
  rw [← dedupGo_map_erase, ← dedupGo_map_erase, hkey]

/-- Counterexample to C9 as stated: same initial (empty) ledger, same
keywords, same payloads; the only difference between the runs is the wall
clock.  The second candidate's url "2026" is a substring of the first run's
row timestamps but not of the second run's, so the two runs return different
record sets, not merely different timestamps. -/
theorem c9_counterexample :
    ((fetch_all_jobs ["python"] (fun _ => "2026-01-01T00:00:00") (fun _ => "2026-01-01 00:00")
        (.ok (.jarr [.jnull,
          .jobj [("title", .jstr "python a"), ("url", .jstr "http://a/1")],
          .jobj [("title", .jstr "python b"), ("url", .jstr "2026")]]))
        (.ok []) (.ok (.jobj [])) "" 0).1.map eraseDate) ≠
      ((fetch_all_jobs ["python"] (fun _ => "2030-01-01T00:00:00") (fun _ => "2030-01-01 00:00")
        (.ok (.jarr [.jnull,
          .jobj [("title", .jstr "python a"), ("url", .jstr "http://a/1")],
          .jobj [("title", .jstr "python b"), ("url", .jstr "2026")]]))
        (.ok []) (.ok (.jobj [])) "" 0).1.map eraseDate) := by
  decide

/-- Witness for the amended C9: one RemoteOK listing, one WeWorkRemotely
listing, timestamps from different years in the two runs. -/
theorem c9_amended_witness :
    (∀ e ∈ ([.jnull,
        .jobj [("title", .jstr "python dev"), ("url", .jstr "http://x/1")]] :
        List JVal).drop 1, rokWfEntry e = true)
    ∧ (∀ c ∈ allCands ["python", "backend"]
        [.jnull, .jobj [("title", .jstr "python dev"), ("url", .jstr "http://x/1")]]
        [[⟨some "/jobs/1", some "Backend Engineer", some "Acme"⟩]] [],
        cleanField c.url = true ∧ cleanField c.recTitle = true ∧ cleanField c.recCompany = true)
    ∧ ((fetch_all_jobs ["python", "backend"] (fun _ => "2026-01-01T00:00:00")
          (fun _ => "2026-01-01 00:00")
          (.ok (.jarr [.jnull, .jobj [("title", .jstr "python dev"), ("url", .jstr "http://x/1")]]))
          (.ok [[⟨some "/jobs/1", some "Backend Engineer", some "Acme"⟩]])
          (.ok (.jobj [("jobs", .jarr [])])) "" 0).1.map eraseDate =
        (fetch_all_jobs ["python", "backend"] (fun _ => "2030-12-31T23:59:59")
          (fun _ => "2030-12-31 23:59")
          (.ok (.jarr [.jnull, .jobj [("title", .jstr "python dev"), ("url", .jstr "http://x/1")]]))
          (.ok [[⟨some "/jobs/1", some "Backend Engineer", some "Acme"⟩]])
          (.ok (.jobj [("jobs", .jarr [])])) "" 0).1.map eraseDate) := by
  refine ⟨by decide, by decide, ?_⟩
  have hs1 : ∀ _ : Nat, cleanField "2026-01-01T00:00:00" = true := fun _ => by decide
  have hs2 : ∀ _ : Nat, cleanField "2030-12-31T23:59:59" = true := fun _ => by decide
  have ht1 : ∀ _ : Nat, ∀ c ∈ allCands ["python", "backend"]
      [.jnull, .jobj [("title", .jstr "python dev"), ("url", .jstr "http://x/1")]]
      [[⟨some "/jobs/1", some "Backend Engineer", some "Acme"⟩]] [],
      strIn c.url "2026-01-01T00:00:00" = false := fun _ => by decide
  have ht2 : ∀ _ : Nat, ∀ c ∈ allCands ["python", "backend"]
      [.jnull, .jobj [("title", .jstr "python dev"), ("url", .jstr "http://x/1")]]
      [[⟨some "/jobs/1", some "Backend Engineer", some "Acme"⟩]] [],
      strIn c.url "2030-12-31T23:59:59" = false := fun _ => by decide
  exact c9_amended_two_run_determinism ["python", "backend"]
    (fun _ => "2026-01-01T00:00:00") (fun _ => "2026-01-01 00:00")
    (fun _ => "2030-12-31T23:59:59") (fun _ => "2030-12-31 23:59")
    [.jnull, .jobj [("title", .jstr "python dev"), ("url", .jstr "http://x/1")]]
    [[⟨some "/jobs/1", some "Backend Engineer", some "Acme"⟩]]
    [("jobs", .jarr [])] [] ""
    (by decide) rfl (by decide) (by decide) (by decide)
    hs1 hs2 ht1 ht2

/-! ### C2: separated candidates reduce to a pure filter on the initial file -/

/-- Two candidates that cannot contaminate each other's ledger-membership
tests: neither url occurs inside the other's row fields. -/
def candSep (a b : Cand) : Bool := !(hitRow a.url b) && !(hitRow b.url a)

/-- Pairwise separation of a candidate list. -/
def sepAll : List Cand → Bool
  | [] => true
  | c :: cs => cs.all (candSep c) && sepAll cs

/-- The pure (timestamp-free, order-free) emission test of the amended claim:
keyword match, nonempty url, url not a substring of the initial ledger file. -/
def pureKeep (f0 : String) (c : Cand) : Bool :=
  c.matched && !c.url.isEmpty && !(strIn c.url f0)

/-- The record a kept candidate produces, with the `date` field erased. -/
def candRecordND (c : Cand) : Job :=
  ⟨c.recTitle, c.recCompany, c.url, c.email, "", c.source⟩

lemma emitJobs_filter (f0 : String) (τ : Nat → String) (cands : List Cand) :
    ∀ (acc : List Cand) (k : Nat), sepAll cands = true →
      (∀ c ∈ cands, ∀ a ∈ acc, hitRow c.url a = false) →
      (emitJobs f0 τ cands acc k).map eraseDate =
        (cands.filter (pureKeep f0)).map candRecordND := by
  induction cands with
  | nil => intro acc k _ _; rfl
  | cons c cs ih =>
    intro acc k hsep hacc
    simp only [sepAll, Bool.and_eq_true] at hsep
    obtain ⟨hsepc, hsep'⟩ := hsep
    have hAny : acc.any (hitRow c.url) = false :=
      List.any_eq_false.mpr fun a ha habs => by
        rw [hacc c (List.mem_cons_self _ _) a ha] at habs
        exact absurd habs (by decide)
    have hrest : ∀ b ∈ cs, ∀ a ∈ acc ++ [c], hitRow b.url a = false := by
      intro b hb a ha
      rcases List.mem_append.mp ha with ha | ha
      · exact hacc b (List.mem_cons_of_mem _ hb) a ha
      · rw [List.mem_singleton.mp ha]
        have := List.all_eq_true.mp hsepc b hb
        simp only [candSep, Bool.and_eq_true, Bool.not_eq_true'] at this
        exact this.2
    simp only [emitJobs, List.filter_cons, pureKeep, hAny, Bool.or_false]
    split
    · simp only [List.map_cons]
      rw [ih (acc ++ [c]) (k + 1) hsep' hrest]
      rfl
    · exact ih acc k hsep'
        (fun b hb a ha => hacc b (List.mem_cons_of_mem _ hb) a ha)

lemma sepAll_pairwise (cands : List Cand) (h : sepAll cands = true) :
    cands.Pairwise (fun a b => candSep a b = true) := by
  induction cands with
  | nil => exact List.Pairwise.nil
  | cons c cs ih =>
    simp only [sepAll, Bool.and_eq_true] at h
    exact List.Pairwise.cons (fun b hb => List.all_eq_true.mp h.1 b hb) (ih h.2)

lemma strIn_self (u : String) : strIn u u = true := by
  simp [strIn, List.infix_rfl]

lemma candSep_ne_url (a b : Cand) (h : candSep a b = true) : a.url ≠ b.url := by
  intro habs
  simp only [candSep, Bool.and_eq_true, Bool.not_eq_true'] at h
  have h1 := h.1
  simp only [hitRow, Bool.or_eq_false_iff] at h1
  have := h1.1.1
  rw [habs, strIn_self] at this
  exact absurd this (by decide)

lemma dedupGo_eq_self (seen : List String) (js : List Job)
    (h1 : ∀ j ∈ js, seen.contains j.url = false)
    (h2 : (js.map Job.url).Nodup) : dedupGo seen js = js := by
  induction js generalizing seen with
  | nil => rfl
  | cons j js ih =>
    simp only [dedupGo, h1 j (List.mem_cons_self _ _)]
    simp only [List.map_cons, List.nodup_cons] at h2
    have h1' : ∀ b ∈ js, (j.url :: seen).contains b.url = false := by
      intro b hb
      simp only [List.contains_cons, Bool.or_eq_false_iff]
      constructor
      · have : j.url ∉ js.map Job.url := h2.1
        rw [beq_eq_false_iff_ne]
        intro habs
        exact this (habs ▸ List.mem_map_of_mem Job.url hb)
      · exact h1 b (List.mem_cons_of_mem _ hb)
    simp [ih (j.url :: seen) h1' h2.2]

lemma dedupByUrl_eq_self (js : List Job) (h : (js.map Job.url).Nodup) :
    dedupByUrl js = js :=
  dedupGo_eq_self [] js (fun _ _ => rfl) h

/-- C2 (amended): over well-formed payloads whose candidates have CSV-inert
fields, urls not occurring in any row timestamp, and pairwise-separated urls
(in particular all distinct), a record appears in `fetch_all_jobs`'s output
(up to the `date` field) exactly when its candidate's title or description
matched a keyword, its url is non-empty, and its url does **not occur as a
substring** of the ledger file as it stood before the cycle.  Membership in
the prior Ledger is thus a substring test of the serialized file, not exact
url equality (`c2_counterexample`), and same-cycle duplicate or mutually
contained urls are excluded by the separation proviso. -/
theorem c2_amended_cycle_characterization (kws : List String) (σ τ : Nat → String)
    (xs1 : List JVal) (secs : List (List WLi)) (fs : List (String × JVal)) (xs3 : List JVal)
    (f0 : String)
    (hwf1 : ∀ e ∈ xs1.drop 1, rokWfEntry e = true)
    (hjobs : jlookup fs "jobs" = some (.jarr xs3))
    (hwf3 : ∀ e ∈ xs3, rmvWfEntry e = true)
    (hf0 : endsNL f0 = true)
    (hclean : ∀ c ∈ allCands kws xs1 secs xs3, cleanField c.url = true ∧
      cleanField c.recTitle = true ∧ cleanField c.recCompany = true)
    (hσ : ∀ j, cleanField (σ j) = true)
    (hts : ∀ j, ∀ c ∈ allCands kws xs1 secs xs3, strIn c.url (σ j) = false)
    (hsep : sepAll (allCands kws xs1 secs xs3) = true) :
    ((fetch_all_jobs kws σ τ (.ok (.jarr xs1)) (.ok secs) (.ok (.jobj fs)) f0 0).1).map
        eraseDate =
      ((allCands kws xs1 secs xs3).filter (pureKeep f0)).map candRecordND
    ∧ ∀ j : Job,
        j ∈ ((fetch_all_jobs kws σ τ (.ok (.jarr xs1)) (.ok secs) (.ok (.jobj fs)) f0 0).1).map
          eraseDate ↔
        ∃ c ∈ allCands kws xs1 secs xs3, pureKeep f0 c = true ∧ j = candRecordND c := by
  have hP := processCands_emitJobs_top σ τ f0 hσ (allCands kws xs1 secs xs3) 0 hf0 hclean
    (fun c hc j => hts j c hc)
  have hemit := emitJobs_filter f0 τ (allCands kws xs1 secs xs3) [] 0 hsep
    (fun c _ a ha => absurd ha (List.not_mem_nil a))
  have hcomp : Job.url ∘ eraseDate = Job.url := funext fun j => rfl
  have hcompND : Job.url ∘ candRecordND = fun c => c.url := funext fun c => rfl
  have hurls : ((processCands σ τ (allCands kws xs1 secs xs3) f0 0).1.map Job.url).Nodup := by
    have h1 : (processCands σ τ (allCands kws xs1 secs xs3) f0 0).1.map Job.url =
        ((processCands σ τ (allCands kws xs1 secs xs3) f0 0).1.map eraseDate).map Job.url := by
      rw [List.map_map, hcomp]
    rw [h1, hP, hemit, List.map_map, hcompND]
    have hpw := (sepAll_pairwise _ hsep).filter (pureKeep f0)
    exact List.Pairwise.map _ (fun a b hab => candSep_ne_url a b hab) hpw
  have hmain : ((fetch_all_jobs kws σ τ (.ok (.jarr xs1)) (.ok secs) (.ok (.jobj fs)) f0 0).1).map
      eraseDate = ((allCands kws xs1 secs xs3).filter (pureKeep f0)).map candRecordND := by
    rw [fetch_all_norm kws σ τ xs1 secs fs xs3 f0 0 hwf1 hjobs hwf3]
    dsimp only
    rw [dedupByUrl_eq_self _ hurls, hP, hemit]
  refine ⟨hmain, ?_⟩
  intro j
  rw [hmain]
  simp only [List.mem_map, List.mem_filter]
  constructor
  · rintro ⟨c, ⟨hc, hk⟩, rfl⟩
    exact ⟨c, hc, hk, rfl⟩
  · rintro ⟨c, hc, hk, rfl⟩
    exact ⟨c, ⟨hc, hk⟩, rfl⟩

/-- Counterexample to C2 as stated: the initial Ledger holds one appended
entry with url "http://x/job12".  The cycle's sole candidate has the distinct
url "http://x/job1" — absent from the Ledger in the exact-string sense — and
a keyword-matching title, yet the cycle returns no records, because the
membership test is a substring test and the candidate url occurs inside the
previously appended one. -/
theorem c2_counterexample :
    matches_keywords ["python"] "python developer" = true
    ∧ (([⟨"2024-01-01T00:00:00", "http://x/job12", "t", "c"⟩] : List LEntry).all
        fun e => e.url != "http://x/job1") = true
    ∧ (fetch_all_jobs ["python"] (fun _ => "2026-01-01T00:00:00") (fun _ => "2026-01-01 00:00")
        (.ok (.jarr [.jnull,
          .jobj [("title", .jstr "python developer"), ("url", .jstr "http://x/job1")]]))
        (.ok []) (.ok (.jobj []))
        (ledgerFile [⟨"2024-01-01T00:00:00", "http://x/job12", "t", "c"⟩]) 0).1 = [] := by
  refine ⟨by decide, by decide, by decide⟩

/-- Witness for the amended C2: one matching RemoteOK listing, one matching
WeWorkRemotely listing, one non-matching Remotive listing, against a ledger
already holding one of the urls. -/
theorem c2_amended_witness :
    endsNL (ledgerFile [⟨"2024-01-01T00:00:00", "http://x/old", "t", "c"⟩]) = true
    ∧ sepAll (allCands ["python", "backend"]
        [.jnull, .jobj [("title", .jstr "python dev"), ("url", .jstr "http://x/new")],
         .jobj [("title", .jstr "python again"), ("url", .jstr "http://x/old")]]
        [[⟨some "/jobs/1", some "Backend Engineer", some "Acme"⟩]]
        [.jobj [("title", .jstr "gardener"), ("url", .jstr "http://x/g1")]]) = true
    ∧ ((fetch_all_jobs ["python", "backend"] (fun _ => "2026-01-01T00:00:00")
        (fun _ => "2026-01-01 00:00")
        (.ok (.jarr [.jnull,
          .jobj [("title", .jstr "python dev"), ("url", .jstr "http://x/new")],
          .jobj [("title", .jstr "python again"), ("url", .jstr "http://x/old")]]))
        (.ok [[⟨some "/jobs/1", some "Backend Engineer", some "Acme"⟩]])
        (.ok (.jobj [("jobs", .jarr [.jobj [("title", .jstr "gardener"),
          ("url", .jstr "http://x/g1")]])]))
        (ledgerFile [⟨"2024-01-01T00:00:00", "http://x/old", "t", "c"⟩]) 0).1).map eraseDate =
      ((allCands ["python", "backend"]
        [.jnull, .jobj [("title", .jstr "python dev"), ("url", .jstr "http://x/new")],
         .jobj [("title", .jstr "python again"), ("url", .jstr "http://x/old")]]
        [[⟨some "/jobs/1", some "Backend Engineer", some "Acme"⟩]]
        [.jobj [("title", .jstr "gardener"), ("url", .jstr "http://x/g1")]]).filter
          (pureKeep (ledgerFile [⟨"2024-01-01T00:00:00", "http://x/old", "t", "c"⟩]))).map
        candRecordND := by
  refine ⟨by decide, by decide, ?_⟩
  have hs : ∀ _ : Nat, cleanField "2026-01-01T00:00:00" = true := fun _ => by decide
  have ht : ∀ _ : Nat, ∀ c ∈ allCands ["python", "backend"]
      [.jnull, .jobj [("title", .jstr "python dev"), ("url", .jstr "http://x/new")],
       .jobj [("title", .jstr "python again"), ("url", .jstr "http://x/old")]]
      [[⟨some "/jobs/1", some "Backend Engineer", some "Acme"⟩]]
      [.jobj [("title", .jstr "gardener"), ("url", .jstr "http://x/g1")]],
      strIn c.url "2026-01-01T00:00:00" = false := fun _ => by decide
  exact (c2_amended_cycle_characterization ["python", "backend"]
    (fun _ => "2026-01-01T00:00:00") (fun _ => "2026-01-01 00:00")
    [.jnull, .jobj [("title", .jstr "python dev"), ("url", .jstr "http://x/new")],
     .jobj [("title", .jstr "python again"), ("url", .jstr "http://x/old")]]
    [[⟨some "/jobs/1", some "Backend Engineer", some "Acme"⟩]]
    [("jobs", .jarr [.jobj [("title", .jstr "gardener"), ("url", .jstr "http://x/g1")]])]
    [.jobj [("title", .jstr "gardener"), ("url", .jstr "http://x/g1")]]
    (ledgerFile [⟨"2024-01-01T00:00:00", "http://x/old", "t", "c"⟩])
    (by decide) rfl (by decide) (by decide) (by decide) hs ht (by decide)).1
